import Mathlib

/-!
Verification of the human-like-typer core against its specification.

Shallow embedding of the Python sources:
  * `src/core/keyboard_map.py`  — QWERTY adjacency and shift maps
  * `src/core/typo_model.py`    — probabilistic typo model
  * `src/personal/timing_model.py` — multi-stage inter-keystroke delay pipeline
  * `src/personal/typer_engine.py` — run state machine and main loop

Randomness is modelled by an oracle `Rng`: a stream `q` of rational draws
(standard-normal samples for `random.gauss`, unit-interval samples for
`random.random`) and a stream `n` of natural draws (for `random.randint`
and `random.choice`).  A counter state `RState` records how much of each
stream has been consumed, so sequential Python calls to the global
`random` module become sequential oracle reads.  `random.gauss(mu, s)` is
`mu + s * z` for the next `z` of the stream; `random.choice` picks the
index `n % length` (any element is reachable, and the empty-sequence
`IndexError` is modelled as `none`); `random.randint(a, b)` is
`a + n % (b - a + 1)` when `a ≤ b` and `none` (Python `ValueError`)
otherwise.  Real-valued quantities use `ℚ`.
-/

namespace Typer

/-- Oracle streams standing for the global `random` module. -/
structure Rng where
  q : Nat → ℚ
  n : Nat → Nat

/-- How many draws of each stream have been consumed. -/
structure RState where
  kq : Nat
  kn : Nat
  deriving Repr, DecidableEq

/-- Consume one rational draw. -/
def drawQ (r : Rng) (s : RState) : ℚ × RState :=
  (r.q s.kq, ⟨s.kq + 1, s.kn⟩)

/-- Consume one natural draw. -/
def drawN (r : Rng) (s : RState) : Nat × RState :=
  (r.n s.kn, ⟨s.kq, s.kn + 1⟩)

/-- `random.gauss(mu, sigma)` as `mu + sigma * z` for the next draw `z`. -/
def pyGauss (mu sigma : ℚ) (r : Rng) (s : RState) : ℚ × RState :=
  let (z, s') := drawQ r s
  (mu + sigma * z, s')

/-- `random.random()`: the next rational draw (a unit-interval sample). -/
def pyRandom (r : Rng) (s : RState) : ℚ × RState :=
  drawQ r s

/-- `random.randint(a, b)`: uniform integer in `[a, b]`; `ValueError`
(modelled as `none`) when `a > b`. -/
def pyRandint (a b : ℤ) (r : Rng) (s : RState) : Option (ℤ × RState) :=
  if a ≤ b then
    let (n, s') := drawN r s
    some (a + (n : ℤ) % (b - a + 1), s')
  else
    none

/-- `random.choice(l)`: element at index `n % l.length`; `IndexError`
(modelled as `none`) on an empty sequence. -/
def pyChoice {α : Type} (l : List α) (r : Rng) (s : RState) :
    Option (α × RState) :=
  let (n, s') := drawN r s
  match l.get? (n % l.length) with
  | some a => some (a, s')
  | none => none

/-- Python list indexing `l[i]` for a non-negative index (raises, i.e.
`none`, when out of range). -/
def pyIndex {α : Type} (l : List α) (i : Nat) : Option α :=
  l.get? i

/-! ## `src/core/keyboard_map.py` -/

/-- `ADJACENT_KEYS`: each base key's ordered list of physical neighbours. -/
def ADJACENT_KEYS : List (Char × List Char) :=
  [ ('`', ['1']),
    ('1', ['`', '2', 'q']),
    ('2', ['1', '3', 'q', 'w']),
    ('3', ['2', '4', 'w', 'e']),
    ('4', ['3', '5', 'e', 'r']),
    ('5', ['4', '6', 'r', 't']),
    ('6', ['5', '7', 't', 'y']),
    ('7', ['6', '8', 'y', 'u']),
    ('8', ['7', '9', 'u', 'i']),
    ('9', ['8', '0', 'i', 'o']),
    ('0', ['9', '-', 'o', 'p']),
    ('-', ['0', '=', 'p', '[']),
    ('=', ['-', '[', ']']),
    ('q', ['1', '2', 'w', 'a']),
    ('w', ['2', '3', 'q', 'e', 'a', 's']),
    ('e', ['3', '4', 'w', 'r', 's', 'd']),
    ('r', ['4', '5', 'e', 't', 'd', 'f']),
    ('t', ['5', '6', 'r', 'y', 'f', 'g']),
    ('y', ['6', '7', 't', 'u', 'g', 'h']),
    ('u', ['7', '8', 'y', 'i', 'h', 'j']),
    ('i', ['8', '9', 'u', 'o', 'j', 'k']),
    ('o', ['9', '0', 'i', 'p', 'k', 'l']),
    ('p', ['0', '-', 'o', '[', 'l', ';']),
    ('[', ['-', '=', 'p', ']', ';', '\'']),
    (']', ['=', '[', '\\', '\'']),
    ('\\', ['=', ']']),
    ('a', ['q', 'w', 's', 'z']),
    ('s', ['q', 'w', 'e', 'a', 'd', 'z', 'x']),
    ('d', ['w', 'e', 'r', 's', 'f', 'x', 'c']),
    ('f', ['e', 'r', 't', 'd', 'g', 'c', 'v']),
    ('g', ['r', 't', 'y', 'f', 'h', 'v', 'b']),
    ('h', ['t', 'y', 'u', 'g', 'j', 'b', 'n']),
    ('j', ['y', 'u', 'i', 'h', 'k', 'n', 'm']),
    ('k', ['u', 'i', 'o', 'j', 'l', 'm', ',']),
    ('l', ['i', 'o', 'p', 'k', ';', ',', '.']),
    (';', ['o', 'p', '[', 'l', '\'', '.']),
    ('\'', ['p', '[', ']', ';']),
    ('z', ['a', 's', 'x']),
    ('x', ['a', 's', 'd', 'z', 'c']),
    ('c', ['s', 'd', 'f', 'x', 'v']),
    ('v', ['d', 'f', 'g', 'c', 'b']),
    ('b', ['f', 'g', 'h', 'v', 'n']),
    ('n', ['g', 'h', 'j', 'b', 'm']),
    ('m', ['h', 'j', 'k', 'n', ',']),
    (',', ['j', 'k', 'l', 'm', '.']),
    ('.', ['k', 'l', ';', ',', '/']),
    ('/', ['l', ';', '.']) ]

/-- The symbol part of `SHIFT_MAP` (shifted char → base key), as written
before the `A–Z` loop extends it. -/
def SHIFT_MAP_SYMBOLS : List (Char × Char) :=
  [ ('~', '`'), ('!', '1'), ('@', '2'), ('#', '3'), ('$', '4'),
    ('%', '5'), ('^', '6'), ('&', '7'), ('*', '8'), ('(', '9'),
    (')', '0'), ('_', '-'), ('+', '='), ('{', '['), ('}', ']'),
    ('|', '\\'), (':', ';'), ('"', '\''), ('<', ','), ('>', '.'),
    ('?', '/') ]

/-- The `for _c in 'A..Z': SHIFT_MAP[_c] = _c.lower()` loop. -/
def SHIFT_MAP_LETTERS : List (Char × Char) :=
  (List.range 26).map fun i =>
    (Char.ofNat (65 + i), Char.ofNat (97 + i))

/-- `SHIFT_MAP`: shifted character → its base key. -/
def SHIFT_MAP : List (Char × Char) :=
  SHIFT_MAP_SYMBOLS ++ SHIFT_MAP_LETTERS

/-- `UNSHIFT_MAP`: built by inverting `SHIFT_MAP` *before* the letters are
added, so it only covers the symbol pairs. -/
def UNSHIFT_MAP : List (Char × Char) :=
  SHIFT_MAP_SYMBOLS.map fun p => (p.2, p.1)

/-- `SHIFT_CHARS`: every character whose input needs the shift key. -/
def SHIFT_CHARS : List Char :=
  SHIFT_MAP.map Prod.fst

/-- `get_base_key(char)`: `SHIFT_MAP.get(char, char)`. -/
def get_base_key (char : Char) : Char :=
  (SHIFT_MAP.lookup char).getD char

/-- `get_adjacent_keys(char)`: neighbours of the base key; if `char` was
shifted, each neighbour is re-shifted via `UNSHIFT_MAP` when present,
else uppercased. -/
def get_adjacent_keys (char : Char) : List Char :=
  let is_shifted := char ∈ SHIFT_CHARS
  let base := get_base_key char
  let neighbors := (ADJACENT_KEYS.lookup base).getD []
  if ¬is_shifted then
    neighbors
  else
    neighbors.map fun n => (UNSHIFT_MAP.lookup n).getD n.toUpper

/-- `is_shift_required(char)`. -/
def is_shift_required (char : Char) : Bool :=
  char ∈ SHIFT_CHARS

/-- The re-shift transform applied to each neighbour of a shifted
character: the explicit shift mapping where one exists, else uppercase. -/
def shiftTransform (n : Char) : Char :=
  (UNSHIFT_MAP.lookup n).getD n.toUpper


/-! ## `src/core/typo_model.py` -/

/-- The log labels carried by `Action`s.  The Python code uses Korean
string literals; they are encoded as constructors with the same payloads:
`normal` = "정상", `fix` = "수정", `typoAdjacent c` = "오타(원래:{c})",
`transposedPair a b` = "전치(원래:{a}{b})", `transposed` = "전치",
`doubleStrike` = "이중입력(실수)", `recog` = "인지 딜레이",
`retypePrep` = "retype 준비".  No label string contains another's text,
so the engine's substring tests `"정상" in label` / `"수정" in label`
become equality with `normal` / `fix`. -/
inductive Label where
  | normal
  | fix
  | typoAdjacent (orig : Char)
  | transposedPair (a b : Char)
  | transposed
  | doubleStrike
  | recog
  | retypePrep
  deriving Repr, DecidableEq

/-- `Action`: the three shapes actually constructed by the typo model. -/
inductive Action where
  | type (char : Char) (label : Label)
  | backspace (count : Nat)
  | pause (durationMs : ℚ) (label : Label)
  deriving Repr, DecidableEq

/-- `TypoConfig`. -/
structure TypoConfig where
  typo_prob : ℤ := 30
  typo_revision_prob : ℤ := 85
  adjacent_key_enabled : Bool := true
  transposition_enabled : Bool := false
  double_strike_enabled : Bool := false
  deriving Repr, DecidableEq

def TypoConfig.actual_typo_prob (cfg : TypoConfig) : ℚ :=
  (cfg.typo_prob : ℚ) / 10000

def TypoConfig.actual_revision_prob (cfg : TypoConfig) : ℚ :=
  (cfg.typo_revision_prob : ℚ) / 100

/-- The three error classes, as listed by `enabled_types` (the Python
strings "adjacent", "transposition", "double_strike"). -/
inductive TKind where
  | adjacent
  | transposition
  | double_strike
  deriving Repr, DecidableEq

/-- `TypoConfig.enabled_types`, in source order. -/
def TypoConfig.enabled_types (cfg : TypoConfig) : List TKind :=
  (if cfg.adjacent_key_enabled then [TKind.adjacent] else []) ++
  (if cfg.transposition_enabled then [TKind.transposition] else []) ++
  (if cfg.double_strike_enabled then [TKind.double_strike] else [])

/-- The `stats` dict of `TypoModel`. -/
structure TypoStats where
  total_chars : Nat
  typos : Nat
  adjacent : Nat
  transposition : Nat
  double_strike : Nat
  revised : Nat
  unrevised : Nat
  deriving Repr, DecidableEq

/-- `reset_stats` / the freshly initialised `stats` dict: all counters 0. -/
def resetStats : TypoStats :=
  ⟨0, 0, 0, 0, 0, 0, 0⟩

/-- `TypoModel._adjacent_typo`. -/
def adjacentTypo (cfg : TypoConfig) (char : Char) (st : TypoStats)
    (r : Rng) (s : RState) : Option (List Action × Bool × TypoStats × RState) :=
  let neighbors := get_adjacent_keys char
  if neighbors = [] then
    some ([Action.type char Label.normal], false, st, s)
  else do
    let (wrong_char, s) ← pyChoice neighbors r s
    let st := { st with typos := st.typos + 1, adjacent := st.adjacent + 1 }
    let acts := [Action.type wrong_char (Label.typoAdjacent char)]
    let (u, s) := pyRandom r s
    if u < cfg.actual_revision_prob then
      let st := { st with revised := st.revised + 1 }
      let (g1, s) := pyGauss 200 50 r s
      let (g2, s) := pyGauss 100 30 r s
      let acts := acts ++
        [Action.pause (max 30 g1) Label.recog,
         Action.backspace 1,
         Action.pause (max 20 g2) Label.retypePrep,
         Action.type char Label.fix]
      some (acts, false, st, s)
    else
      let st := { st with unrevised := st.unrevised + 1 }
      some (acts, false, st, s)

/-- `TypoModel._transposition_typo`. -/
def transpositionTypo (cfg : TypoConfig) (char : Char) (next_char : Option Char)
    (st : TypoStats) (r : Rng) (s : RState) :
    Option (List Action × Bool × TypoStats × RState) :=
  match next_char with
  | none => some ([Action.type char Label.normal], false, st, s)
  | some nc =>
    let st := { st with typos := st.typos + 1, transposition := st.transposition + 1 }
    let acts := [Action.type nc (Label.transposedPair char nc),
                 Action.type char Label.transposed]
    let (u, s) := pyRandom r s
    if u < cfg.actual_revision_prob then
      let st := { st with revised := st.revised + 1 }
      let (g1, s) := pyGauss 275 60 r s
      let (g2, s) := pyGauss 100 30 r s
      let acts := acts ++
        [Action.pause (max 50 g1) Label.recog,
         Action.backspace 2,
         Action.pause (max 20 g2) Label.retypePrep,
         Action.type char Label.fix,
         Action.type nc Label.fix]
      some (acts, true, st, s)
    else
      let st := { st with unrevised := st.unrevised + 1 }
      some (acts, true, st, s)

/-- `TypoModel._double_strike_typo`. -/
def doubleStrikeTypo (cfg : TypoConfig) (char : Char) (st : TypoStats)
    (r : Rng) (s : RState) : Option (List Action × Bool × TypoStats × RState) :=
  let st := { st with typos := st.typos + 1, double_strike := st.double_strike + 1 }
  let acts := [Action.type char Label.normal,
               Action.type char Label.doubleStrike]
  let (u, s) := pyRandom r s
  if u < cfg.actual_revision_prob then
    let st := { st with revised := st.revised + 1 }
    let (g1, s) := pyGauss 140 40 r s
    let (g2, s) := pyGauss 55 15 r s
    let acts := acts ++
      [Action.pause (max 30 g1) Label.recog,
       Action.backspace 1,
       Action.pause (max 15 g2) Label.retypePrep]
    some (acts, false, st, s)
  else
    let st := { st with unrevised := st.unrevised + 1 }
    some (acts, false, st, s)

/-- `TypoModel.process_char(char, prev_char, next_char)`; returns
`(actions, skip_next, stats', rng-state')`.  `prev_char` is accepted but,
as in the source, unused. -/
def processChar (cfg : TypoConfig) (char : Char)
    (_prev_char next_char : Option Char) (st : TypoStats)
    (r : Rng) (s : RState) : Option (List Action × Bool × TypoStats × RState) :=
  let st := { st with total_chars := st.total_chars + 1 }
  let enabled := cfg.enabled_types
  if enabled = [] then
    some ([Action.type char Label.normal], false, st, s)
  else
    let (u, s) := pyRandom r s
    if cfg.actual_typo_prob ≤ u then
      some ([Action.type char Label.normal], false, st, s)
    else do
      let (typo_type, s) ← pyChoice enabled r s
      match typo_type with
      | TKind.adjacent => adjacentTypo cfg char st r s
      | TKind.transposition => transpositionTypo cfg char next_char st r s
      | TKind.double_strike => doubleStrikeTypo cfg char st r s

/-- `prev_char = text[i - 1] if i > 0 else None` (an out-of-range access
would propagate as an error). -/
def prevFetch (text : List Char) (i : Nat) : Option (Option Char) :=
  if 0 < i then (pyIndex text (i - 1)).map some else some none

/-- `next_char = text[i + 1] if i < len(text) - 1 else None`. -/
def nextFetch (text : List Char) (i : Nat) : Option (Option Char) :=
  if i < text.length - 1 then (pyIndex text (i + 1)).map some else some none

/-- `TypoModel.process_text(text)`: the batch cursor loop from index `i`.
Every list access is through `pyIndex`, guarded exactly as in the source
(`text[i]` under `i < len`, `text[i-1]` under `i > 0`, `text[i+1]` under
`i < len - 1`); a failed access would propagate as `none`. -/
def processTextGo (cfg : TypoConfig) (text : List Char) (i : Nat)
    (st : TypoStats) (r : Rng) (s : RState) :
    Option (List (Nat × Char × List Action) × TypoStats × RState) :=
  if h : i < text.length then do
    let char ← pyIndex text i
    let prev_char ← prevFetch text i
    let next_char ← nextFetch text i
    let (actions, skip_next, st', s') ← processChar cfg char prev_char next_char st r s
    let (rest, st'', s'') ←
      processTextGo cfg text (i + if skip_next then 2 else 1) st' r s'
    some ((i, char, actions) :: rest, st'', s'')
  else
    some ([], st, s)
termination_by text.length - i
decreasing_by
  cases skip_next <;> simp <;> omega

/-- `TypoModel.process_text(text)`. -/
def process_text (cfg : TypoConfig) (text : List Char) (st : TypoStats)
    (r : Rng) (s : RState) :
    Option (List (Nat × Char × List Action) × TypoStats × RState) :=
  processTextGo cfg text 0 st r s

/-! ## `src/personal/timing_model.py` -/

/-- Python's `round(x, p)` on exact values: round half to even at `p`
decimal places. -/
def pyRound (x : ℚ) (p : Nat) : ℚ :=
  let s : ℚ := (10 : ℚ) ^ p
  let y := x * s
  let f : ℤ := ⌊y⌋
  let d := y - (f : ℚ)
  let n : ℤ :=
    if d < 1 / 2 then f
    else if 1 / 2 < d then f + 1
    else if f % 2 = 0 then f else f + 1
  (n : ℚ) / s

/-- `TimingConfig`. -/
structure TimingConfig where
  base_delay_ms : ℤ := 70
  delay_variance_ms : ℤ := 30
  word_boundary_enabled : Bool := true
  intra_word_speed_factor : ℚ := 8 / 10
  inter_word_pause_ms : ℤ := 120
  punctuation_pause_enabled : Bool := true
  punctuation_pause_ms : ℤ := 200
  newline_pause_enabled : Bool := true
  newline_pause_ms : ℤ := 400
  shift_penalty_enabled : Bool := true
  shift_penalty_ms : ℤ := 25
  double_letter_enabled : Bool := false
  double_letter_speed_factor : ℚ := 6 / 10
  burst_enabled : Bool := false
  burst_length_min : ℤ := 2
  burst_length_max : ℤ := 5
  burst_pause_ms : ℤ := 40
  fatigue_enabled : Bool := false
  fatigue_factor : ℚ := 5 / 100
  deriving Repr, DecidableEq

/-- `PUNCTUATION_CHARS = set('.,!?:;')`. -/
def PUNCTUATION_CHARS : List Char := ['.', ',', '!', '?', ':', ';']

/-- Membership test `x in PUNCTUATION_CHARS` where `x` may be `None`. -/
def optPunct (prev : Option Char) : Bool :=
  match prev with
  | some p => p ∈ PUNCTUATION_CHARS
  | none => false

/-- `char.lower() == prev_char.lower()` with a non-`None` `prev_char`. -/
def optSameLetter (char : Char) (prev : Option Char) : Bool :=
  match prev with
  | some p => char.toLower = p.toLower
  | none => false

/-- The mutable state of `TimingModel`: `_burst_counter` and `_burst_size`. -/
structure TimingState where
  burst_counter : ℤ
  burst_size : ℤ
  deriving Repr, DecidableEq

/-- `TimingModel._reset_burst` (also run by `__init__` and `reset`):
counter to 0, size drawn by `randint(burst_length_min, burst_length_max)`. -/
def resetBurst (cfg : TimingConfig) (r : Rng) (s : RState) :
    Option (TimingState × RState) := do
  let (size, s') ← pyRandint cfg.burst_length_min cfg.burst_length_max r s
  some (⟨0, size⟩, s')

/-- `TimingModel._check_burst_boundary`. -/
def checkBurstBoundary (cfg : TimingConfig) (ts : TimingState)
    (r : Rng) (s : RState) : Option (Bool × TimingState × RState) :=
  let c := ts.burst_counter + 1
  if ts.burst_size ≤ c then do
    let (size, s') ← pyRandint cfg.burst_length_min cfg.burst_length_max r s
    some (true, ⟨0, size⟩, s')
  else
    some (false, ⟨c, ts.burst_size⟩, s)

/-- A breakdown: the insertion-ordered `dict` of per-stage contributions. -/
abbrev Breakdown := List (String × ℚ)

/-- The configuration with all three typo error classes disabled. -/
def typoAllOff : TypoConfig :=
  { adjacent_key_enabled := false, transposition_enabled := false,
    double_strike_enabled := false }

/-- A fold running `process_char` over an arbitrary sequence of
`(char, prev_char, next_char)` call arguments, threading the stats — the
quantification device for "after any sequence of `process_char` calls". -/
def processSeq (cfg : TypoConfig)
    (calls : List (Char × Option Char × Option Char))
    (st : TypoStats) (r : Rng) (s : RState) : Option (TypoStats × RState) :=
  match calls with
  | [] => some (st, s)
  | (c, pc, nc) :: rest => do
    let (_, _, st2, s2) ← processChar cfg c pc nc st r s
    processSeq cfg rest st2 r s2

/-- Stage 1 of `calculate_delay`: base delay plus gaussian jitter. -/
def baseStage (cfg : TimingConfig) (r : Rng) (s : RState) :
    ℚ × Breakdown × RState :=
  let (g, s) := pyGauss 0 ((cfg.delay_variance_ms : ℚ) / 2) r s
  let delay := (cfg.base_delay_ms : ℚ) + g
  (delay, [("base", pyRound delay 1)], s)

/-- Stages 2–3 of `calculate_delay`: the `if / elif` chain — newline
pause, else word boundary (inter-word pause or intra-word factor). -/
def newlineWordStage (cfg : TimingConfig) (char : Char) (prev_char : Option Char)
    (delay : ℚ) (bd : Breakdown) (r : Rng) (s : RState) :
    ℚ × Breakdown × RState :=
  if cfg.newline_pause_enabled ∧ prev_char = some '\n' then
    let (g, s) := pyGauss 0 (3 / 10) r s
    let add := max 0 ((cfg.newline_pause_ms : ℚ) * (1 + g))
    (delay + add, bd ++ [("newline", pyRound add 1)], s)
  else if cfg.word_boundary_enabled then
    if prev_char = some ' ' then
      let (g, s) := pyGauss 0 (2 / 10) r s
      let add := max 0 ((cfg.inter_word_pause_ms : ℚ) * (1 + g))
      (delay + add, bd ++ [("inter_word", pyRound add 1)], s)
    else if prev_char ≠ none ∧ prev_char ≠ some ' ' ∧ char ≠ ' ' then
      (delay * cfg.intra_word_speed_factor,
       bd ++ [("intra_word_factor", cfg.intra_word_speed_factor)], s)
    else
      (delay, bd, s)
  else
    (delay, bd, s)

/-- Stage 4 of `calculate_delay`: punctuation pause. -/
def punctuationStage (cfg : TimingConfig) (prev_char : Option Char)
    (delay : ℚ) (bd : Breakdown) (r : Rng) (s : RState) :
    ℚ × Breakdown × RState :=
  if cfg.punctuation_pause_enabled ∧ optPunct prev_char then
    let (g, s) := pyGauss 0 (3 / 10) r s
    let add := max 0 ((cfg.punctuation_pause_ms : ℚ) * (1 + g))
    (delay + add, bd ++ [("punctuation", pyRound add 1)], s)
  else
    (delay, bd, s)

/-- Stage 5 of `calculate_delay`: flat shift penalty. -/
def shiftStage (cfg : TimingConfig) (char : Char) (delay : ℚ) (bd : Breakdown) :
    ℚ × Breakdown :=
  if cfg.shift_penalty_enabled ∧ char ∈ SHIFT_CHARS then
    (delay + (cfg.shift_penalty_ms : ℚ),
     bd ++ [("shift", (cfg.shift_penalty_ms : ℚ))])
  else
    (delay, bd)

/-- Stage 6 of `calculate_delay`: double-letter acceleration. -/
def doubleLetterStage (cfg : TimingConfig) (char : Char) (prev_char : Option Char)
    (delay : ℚ) (bd : Breakdown) : ℚ × Breakdown :=
  if cfg.double_letter_enabled ∧ optSameLetter char prev_char then
    (delay * cfg.double_letter_speed_factor,
     bd ++ [("double_letter_factor", cfg.double_letter_speed_factor)])
  else
    (delay, bd)

/-- Stage 7 of `calculate_delay`: burst micro-pause.  The boundary check
(and its counter increment) runs only when bursting is enabled, matching
the short-circuit `if cfg.burst_enabled and self._check_burst_boundary()`. -/
def burstStage (cfg : TimingConfig) (delay : ℚ) (bd : Breakdown)
    (ts : TimingState) (r : Rng) (s : RState) :
    Option (ℚ × Breakdown × TimingState × RState) :=
  if cfg.burst_enabled then
    (checkBurstBoundary cfg ts r s).map fun (boundary, ts', s') =>
      if boundary = true then
        let (g, s'') := pyGauss 0 (3 / 10) r s'
        let add := max 0 ((cfg.burst_pause_ms : ℚ) * (1 + g))
        (delay + add, bd ++ [("burst", pyRound add 1)], ts', s'')
      else
        (delay, bd, ts', s')
  else
    some (delay, bd, ts, s)

/-- Stage 8 of `calculate_delay`: fatigue multiplier. -/
def fatigueStage (cfg : TimingConfig) (index total_length : ℤ)
    (delay : ℚ) (bd : Breakdown) : ℚ × Breakdown :=
  if cfg.fatigue_enabled ∧ 0 < total_length then
    let progress : ℚ := (index : ℚ) / (total_length : ℚ)
    let multiplier := 1 + cfg.fatigue_factor * progress
    (delay * multiplier, bd ++ [("fatigue_multiplier", pyRound multiplier 4)])
  else
    (delay, bd)

/-- `TimingModel.calculate_delay(char, prev_char, index, total_length)`;
returns `(delay_ms, breakdown, timing-state', rng-state')`.  `none` only
on the `randint` `ValueError` inside the burst stage. -/
def calculateDelay (cfg : TimingConfig) (char : Char) (prev_char : Option Char)
    (index total_length : ℤ) (ts : TimingState) (r : Rng) (s : RState) :
    Option (ℚ × Breakdown × TimingState × RState) :=
  let (delay, bd, s) := baseStage cfg r s
  let (delay, bd, s) := newlineWordStage cfg char prev_char delay bd r s
  let (delay, bd, s) := punctuationStage cfg prev_char delay bd r s
  let (delay, bd) := shiftStage cfg char delay bd
  let (delay, bd) := doubleLetterStage cfg char prev_char delay bd
  (burstStage cfg delay bd ts r s).map fun (delay, bd, ts, s) =>
    let (delay, bd) := fatigueStage cfg index total_length delay bd
    let final := max 15 delay
    (final, bd ++ [("final", pyRound final 1)], ts, s)

/-- `TimingModel.calculate_all(text)`: reset, then one sample per char. -/
def calculateAllGo (cfg : TimingConfig) (text : List Char) (total : ℤ)
    (i : Nat) (prev_char : Option Char) (ts : TimingState) (r : Rng) (s : RState) :
    Option (List (Char × ℚ × Breakdown) × TimingState × RState) :=
  match text with
  | [] => some ([], ts, s)
  | char :: rest => do
    let (delay, bd, ts', s') ←
      calculateDelay cfg char prev_char (i : ℤ) total ts r s
    let (out, ts'', s'') ← calculateAllGo cfg rest total (i + 1) (some char) ts' r s'
    some ((char, delay, bd) :: out, ts'', s'')

/-- `TimingModel.calculate_all(text)`. -/
def calculate_all (cfg : TimingConfig) (text : List Char) (r : Rng) (s : RState) :
    Option (List (Char × ℚ × Breakdown) × TimingState × RState) := do
  let (ts, s') ← resetBurst cfg r s
  calculateAllGo cfg text (text.length : ℤ) 0 none ts r s'

/-- Whether a breakdown records a contribution under key `k`. -/
def hasKey (bd : Breakdown) (k : String) : Bool :=
  bd.any fun p => p.1 == k

/-- Gate of stage 2 (newline pause). -/
def newlineFires (cfg : TimingConfig) (prev_char : Option Char) : Bool :=
  cfg.newline_pause_enabled && prev_char == some '\n'

/-- Gate of the inter-word branch of stage 3. -/
def interFires (cfg : TimingConfig) (prev_char : Option Char) : Bool :=
  !newlineFires cfg prev_char && cfg.word_boundary_enabled &&
    prev_char == some ' '

/-- Gate of the intra-word branch of stage 3. -/
def intraFires (cfg : TimingConfig) (char : Char) (prev_char : Option Char) :
    Bool :=
  !newlineFires cfg prev_char && cfg.word_boundary_enabled &&
    !(prev_char == some ' ') && !(prev_char == none) && !(char == ' ')

/-- Gate of stage 4 (punctuation pause): depends only on its own enable
flag and the previous character. -/
def punctFires (cfg : TimingConfig) (prev_char : Option Char) : Bool :=
  cfg.punctuation_pause_enabled && optPunct prev_char

/-- Gate of stage 5 (shift penalty). -/
def shiftFires (cfg : TimingConfig) (char : Char) : Bool :=
  cfg.shift_penalty_enabled && decide (char ∈ SHIFT_CHARS)

/-- Gate of stage 6 (double-letter acceleration). -/
def dlFires (cfg : TimingConfig) (char : Char) (prev_char : Option Char) :
    Bool :=
  cfg.double_letter_enabled && optSameLetter char prev_char

/-- Gate of stage 7's pause (burst enabled and the counter about to reach
the current target). -/
def burstFires (cfg : TimingConfig) (ts : TimingState) : Bool :=
  cfg.burst_enabled && decide (ts.burst_size ≤ ts.burst_counter + 1)

/-- Gate of stage 8 (fatigue). -/
def fatigueFires (cfg : TimingConfig) (total_length : ℤ) : Bool :=
  cfg.fatigue_enabled && decide (0 < total_length)

/-! ## `src/personal/typer_engine.py` -/

/-- `EngineState`. -/
inductive EngineState where
  | IDLE
  | COUNTDOWN
  | TYPING
  | PAUSED
  | DONE
  deriving Repr, DecidableEq

/-- `EngineConfig`. -/
structure EngineConfig where
  timing : TimingConfig := {}
  typo : TypoConfig := {}
  countdown_seconds : ℤ := 3
  precise_mode : Bool := false
  dry_run : Bool := false

/-- Precise-mode, countdown-free, typo-free engine configuration (used to
isolate the precise-emission fallback path). -/
def cfgPreciseNoTypos : EngineConfig :=
  { typo := typoAllOff, precise_mode := true, countdown_seconds := 0 }

/-- One `self._log(...)` call, as a structured event (the engine's Korean
format strings are abstracted to their parameters). -/
inductive LogEvent where
  | countdownTick (remaining : ℤ)
  | typed (elapsed : ℚ) (c : Char) (label : Label) (delayMs : ℚ)
      (bdTag : Option Breakdown)
  | backspaceLog (elapsed : ℚ) (count : Nat)
  | pauseLog (elapsed : ℚ) (label : Label) (durationMs : ℚ)
  | pausedMark
  | resumedMark
  | stoppedMark
  | completeLog (totalTime : ℚ) (chars : Nat)
  deriving Repr, DecidableEq

/-- One successful or failed call into the external emission sink.
`typeFail` records an attempt on which the sink raised. -/
inductive EmitEvent where
  | typePrecise (c : Char)
  | typeSimple (c : Char)
  | typeFail (c : Char)
  | backspace (count : Nat)
  deriving Repr, DecidableEq

/-- Whether an emission event corresponds to a `Type` action. -/
def isTypeEmit : EmitEvent → Bool
  | EmitEvent.typePrecise _ => true
  | EmitEvent.typeSimple _ => true
  | EmitEvent.typeFail _ => true
  | EmitEvent.backspace _ => false

/-- The engine's externally observable control surface: current state,
the two `threading.Event` flags, the `log_lines` list (one entry per
`on_log` delivery) and the sequence of `on_state_change` deliveries. -/
structure Engine where
  state : EngineState := EngineState.IDLE
  stop_event : Bool := false
  pause_event : Bool := true
  logs : List LogEvent := []
  state_changes : List EngineState := []
  deriving Repr, DecidableEq

/-- `TyperEngine._set_state`: store and notify. -/
def Engine.setState (e : Engine) (st : EngineState) : Engine :=
  { e with state := st, state_changes := e.state_changes ++ [st] }

/-- `TyperEngine._log`: append and notify. -/
def Engine.pushLog (e : Engine) (ev : LogEvent) : Engine :=
  { e with logs := e.logs ++ [ev] }

/-- `TyperEngine.pause`: only from `TYPING`. -/
def Engine.pause (e : Engine) : Engine :=
  if e.state = EngineState.TYPING then
    (({ e with pause_event := false } : Engine).setState
      EngineState.PAUSED).pushLog LogEvent.pausedMark
  else
    e

/-- `TyperEngine.resume`: only from `PAUSED`. -/
def Engine.resume (e : Engine) : Engine :=
  if e.state = EngineState.PAUSED then
    ({ e.setState EngineState.TYPING with pause_event := true } : Engine).pushLog
      LogEvent.resumedMark
  else
    e

/-- `TyperEngine.stop`: unconditionally set the cancellation flag, release
the pause gate, report `IDLE`, and log. -/
def Engine.stop (e : Engine) : Engine :=
  (({ e with stop_event := true, pause_event := true } : Engine).setState
    EngineState.IDLE).pushLog LogEvent.stoppedMark

/-- External environment of one background run: successive `time.time()`
readings, whether each guarded sink call raises, and the successive
values the run thread observes for `_stop_event.is_set()`. -/
structure Env where
  clock : Nat → ℚ
  sinkFail : Nat → Bool
  stopSig : Nat → Bool

/-- Consumption counters for the three environment streams. -/
structure EnvState where
  kc : Nat
  ks : Nat
  kf : Nat
  deriving Repr, DecidableEq

def drawClock (env : Env) (es : EnvState) : ℚ × EnvState :=
  (env.clock es.kc, { es with kc := es.kc + 1 })

def drawStop (env : Env) (es : EnvState) : Bool × EnvState :=
  (env.stopSig es.ks, { es with ks := es.ks + 1 })

def drawFail (env : Env) (es : EnvState) : Bool × EnvState :=
  (env.sinkFail es.kf, { es with kf := es.kf + 1 })

/-- `TyperEngine._build_stats` result dict. -/
structure RunStatsD where
  total_time_sec : ℚ
  total_chars : Nat
  avg_cpm : ℚ
  avg_wpm : ℚ
  avg_delay_ms : ℚ
  min_delay_ms : ℚ
  max_delay_ms : ℚ
  typo_stats : TypoStats
  deriving Repr, DecidableEq

/-- `TyperEngine._build_stats(total_time, total_chars)`. -/
def buildStats (tst : TypoStats) (timing_data : List (Char × ℚ × Breakdown))
    (total_time : ℚ) (total_chars : Nat) : RunStatsD :=
  let delays := timing_data.map fun x => x.2.1
  let avg_delay : ℚ :=
    match delays with
    | [] => 0
    | _ => delays.sum / (delays.length : ℚ)
  let cpm : ℚ := if 0 < total_time then (total_chars : ℚ) / total_time * 60 else 0
  let wpm := cpm / 5
  { total_time_sec := pyRound total_time 2
    total_chars := total_chars
    avg_cpm := pyRound cpm 1
    avg_wpm := pyRound wpm 1
    avg_delay_ms := pyRound avg_delay 1
    min_delay_ms := match delays with
      | [] => 0
      | d :: ds => pyRound (ds.foldl min d) 1
    max_delay_ms := match delays with
      | [] => 0
      | d :: ds => pyRound (ds.foldl max d) 1
    typo_stats := tst }

/-- Trace accumulated by one background run. -/
structure RunAcc where
  state_changes : List EngineState := []
  logs : List LogEvent := []
  emits : List EmitEvent := []
  progress : List (Nat × Nat) := []
  timing_data : List (Char × ℚ × Breakdown) := []
  deriving Repr, DecidableEq

def RunAcc.pushLog (a : RunAcc) (e : LogEvent) : RunAcc :=
  { a with logs := a.logs ++ [e] }

def RunAcc.pushEmit (a : RunAcc) (e : EmitEvent) : RunAcc :=
  { a with emits := a.emits ++ [e] }

def RunAcc.setState (a : RunAcc) (st : EngineState) : RunAcc :=
  { a with state_changes := a.state_changes ++ [st] }

/-- How a background run ends: natural exhaustion (`DONE`), cooperative
cancellation (plain `return`), or an uncaught exception killing the
thread. -/
inductive RunEnd where
  | done
  | stoppedEarly
  | crashed
  deriving Repr, DecidableEq

/-- Result of one background run: how it ended, the trace, and the stats
passed to `on_complete` (`none` when `on_complete` was never invoked). -/
structure RunResult where
  endKind : RunEnd
  acc : RunAcc
  completed : Option RunStatsD
  deriving Repr, DecidableEq

/-- Outcome of executing part of the per-character action list. -/
inductive ExecOut where
  | ok (es : EnvState) (acc : RunAcc)
  | halted (es : EnvState) (acc : RunAcc)
  | crashed (es : EnvState) (acc : RunAcc)
  deriving Repr, DecidableEq

/-- The `try/except` around one `Type` emission: attempt precise or simple
per the mode; on a raise, fall back to one simple attempt; if that also
raises, the exception propagates (`none`). -/
def execType (precise dry : Bool) (c : Char) (env : Env) (es : EnvState)
    (acc : RunAcc) : Option (EnvState × RunAcc) :=
  if dry then
    some (es, acc)
  else
    let (f1, es) := drawFail env es
    if f1 then
      let acc := acc.pushEmit (EmitEvent.typeFail c)
      let (f2, es) := drawFail env es
      if f2 then none
      else some (es, acc.pushEmit (EmitEvent.typeSimple c))
    else if precise then
      some (es, acc.pushEmit (EmitEvent.typePrecise c))
    else
      some (es, acc.pushEmit (EmitEvent.typeSimple c))

/-- Whether the per-`Type` log line carries the breakdown tag:
`"정상" in label or "수정" in label`. -/
def labelShowsBd (l : Label) : Bool :=
  l = Label.normal ∨ l = Label.fix

/-- The `for action in actions` body: cancellation check before each
action, then execute and log it. -/
def execActions (precise dry : Bool) (delay : ℚ) (bd : Breakdown)
    (elapsed : ℚ) (acts : List Action) (env : Env) (es : EnvState)
    (acc : RunAcc) : ExecOut :=
  match acts with
  | [] => ExecOut.ok es acc
  | act :: rest =>
    let (stp, es) := drawStop env es
    if stp then ExecOut.halted es acc
    else
      match act with
      | Action.type c label =>
        match execType precise dry c env es acc with
        | none => ExecOut.crashed es acc
        | some (es, acc) =>
          let bdTag := if labelShowsBd label then some bd else none
          let acc := acc.pushLog (LogEvent.typed elapsed c label delay bdTag)
          execActions precise dry delay bd elapsed rest env es acc
      | Action.backspace n =>
        if dry then
          let acc := acc.pushLog (LogEvent.backspaceLog elapsed n)
          execActions precise dry delay bd elapsed rest env es acc
        else
          let (f, es) := drawFail env es
          if f then ExecOut.crashed es acc
          else
            let acc := (acc.pushEmit (EmitEvent.backspace n)).pushLog
              (LogEvent.backspaceLog elapsed n)
            execActions precise dry delay bd elapsed rest env es acc
      | Action.pause ms label =>
        let acc := acc.pushLog (LogEvent.pauseLog elapsed label ms)
        execActions precise dry delay bd elapsed rest env es acc

/-- The `while i < total` main loop of `TyperEngine._run`.  Sleeps are
timeless here; the pause-gate wait is a no-op because this function models
a run that is never paused concurrently.  A Python exception (impossible
indexing, `randint` `ValueError`, double sink failure) ends the thread as
`crashed`. -/
def runLoop (cfg : EngineConfig) (text : List Char) (total : Nat)
    (startTime : ℚ) (i : Nat) (prev_char : Option Char) (ts : TimingState)
    (tst : TypoStats) (r : Rng) (s : RState) (env : Env) (es : EnvState)
    (acc : RunAcc) : RunResult :=
  if h : i < total then
    let (stp, es) := drawStop env es
    if stp then ⟨RunEnd.stoppedEarly, acc, none⟩
    else
      match pyIndex text i with
      | none => ⟨RunEnd.crashed, acc, none⟩
      | some char =>
        let next_char : Option (Option Char) :=
          if i < total - 1 then
            match pyIndex text (i + 1) with
            | none => none
            | some c => some (some c)
          else some none
        match next_char with
        | none => ⟨RunEnd.crashed, acc, none⟩
        | some next_char =>
          match calculateDelay cfg.timing char prev_char (i : ℤ) (total : ℤ)
              ts r s with
          | none => ⟨RunEnd.crashed, acc, none⟩
          | some (delay, bd, ts, s) =>
            match processChar cfg.typo char prev_char next_char tst r s with
            | none => ⟨RunEnd.crashed, acc, none⟩
            | some (actions, skip_next, tst, s) =>
              let (t, es) := drawClock env es
              let elapsed := t - startTime
              match execActions cfg.precise_mode cfg.dry_run delay bd elapsed
                  actions env es acc with
              | ExecOut.halted _ acc => ⟨RunEnd.stoppedEarly, acc, none⟩
              | ExecOut.crashed _ acc => ⟨RunEnd.crashed, acc, none⟩
              | ExecOut.ok es acc =>
                let acc := { acc with
                  timing_data := acc.timing_data ++ [(char, delay, bd)],
                  progress := acc.progress ++ [(i + 1, total)] }
                let prev_char := some char
                if skip_next then
                  if i + 1 < total then
                    match pyIndex text (i + 1) with
                    | none => ⟨RunEnd.crashed, acc, none⟩
                    | some nchar =>
                      match calculateDelay cfg.timing nchar (some char)
                          ((i + 1 : Nat) : ℤ) (total : ℤ) ts r s with
                      | none => ⟨RunEnd.crashed, acc, none⟩
                      | some (ndelay, nbd, ts, s) =>
                        let acc := { acc with
                          timing_data := acc.timing_data ++ [(nchar, ndelay, nbd)] }
                        runLoop cfg text total startTime (i + 2) (some nchar)
                          ts tst r s env es acc
                  else
                    runLoop cfg text total startTime (i + 2) prev_char
                      ts tst r s env es acc
                else
                  runLoop cfg text total startTime (i + 1) prev_char
                    ts tst r s env es acc
  else
    let (t, es) := drawClock env es
    let total_time := t - startTime
    let acc := acc.setState EngineState.DONE
    let stats := buildStats tst acc.timing_data total_time total
    let acc := acc.pushLog (LogEvent.completeLog total_time total)
    ⟨RunEnd.done, acc, some stats⟩
termination_by total - i
decreasing_by
  all_goals omega

/-- The countdown `for remaining in range(countdown_seconds, 0, -1)` loop;
`remaining` counts down `n, n-1, …, 1`.  `Sum.inl` is the early return on
a set cancellation flag, carrying the trace so far. -/
def countdownGo (n : Nat) (env : Env) (es : EnvState) (acc : RunAcc) :
    Sum RunAcc (EnvState × RunAcc) :=
  match n with
  | 0 => Sum.inr (es, acc)
  | m + 1 =>
    let (stp, es) := drawStop env es
    if stp then Sum.inl acc
    else
      let acc := acc.pushLog (LogEvent.countdownTick ((m + 1 : Nat) : ℤ))
      countdownGo m env es acc

/-- `TyperEngine.start(text)` from `IDLE`, followed by the spawned
`_run(text)` thread, for a run that is never paused (the concurrent
`stop()` flag is visible through `env.stopSig`).  `start` re-initialises
the per-run state: fresh stats and a timing `reset()` (which draws the
burst target). -/
def engineRun (cfg : EngineConfig) (text : List Char) (r : Rng) (s : RState)
    (env : Env) (es : EnvState) : Option RunResult := do
  let (ts, s) ← resetBurst cfg.timing r s
  let tst := resetStats
  let acc : RunAcc := {}
  -- countdown phase
  let cdOut :=
    if ¬cfg.dry_run ∧ 0 < cfg.countdown_seconds then
      let acc := acc.setState EngineState.COUNTDOWN
      match countdownGo cfg.countdown_seconds.toNat env es acc with
      | Sum.inl acc => Sum.inl (acc.setState EngineState.IDLE)
      | Sum.inr (es, acc) => Sum.inr (es, acc)
    else Sum.inr (es, acc)
  match cdOut with
  | Sum.inl acc => some ⟨RunEnd.stoppedEarly, acc, none⟩
  | Sum.inr (es, acc) =>
    let acc := acc.setState EngineState.TYPING
    let (t0, es) := drawClock env es
    some (runLoop cfg text text.length t0 0 none ts tst r s env es acc)

/-! ## Concrete oracles used by witnesses and counterexamples -/

/-- An oracle whose every draw is zero. -/
def rng0 : Rng := ⟨fun _ => 0, fun _ => 0⟩

/-- A benign environment: constant clock, sink never raises, stop flag
never set. -/
def env0 : Env := ⟨fun _ => 0, fun _ => false, fun _ => false⟩

/-! ## Theorems -/

/-! ### Breakdown-key bookkeeping for `calculate_delay` -/

theorem hasKey_append (bd l : Breakdown) (k : String) :
    hasKey (bd ++ l) k = (hasKey bd k || hasKey l k) := by
  simp [hasKey, List.any_append]

theorem baseStage_hasKey (cfg : TimingConfig) (r : Rng) (s : RState)
    (k : String) :
    hasKey (baseStage cfg r s).2.1 k = ("base" == k) := by
  simp [baseStage, pyGauss, drawQ, hasKey]

theorem nw_hasKey (cfg : TimingConfig) (char : Char) (prev : Option Char)
    (d : ℚ) (bd : Breakdown) (r : Rng) (s : RState) (k : String) :
    hasKey (newlineWordStage cfg char prev d bd r s).2.1 k =
      (hasKey bd k || (newlineFires cfg prev && ("newline" == k))
        || (interFires cfg prev && ("inter_word" == k))
        || (intraFires cfg char prev && ("intra_word_factor" == k))) := by
  rw [Bool.eq_iff_iff]
  by_cases h1 : cfg.newline_pause_enabled = true <;>
  by_cases h2 : prev = some '\n' <;>
  by_cases h3 : cfg.word_boundary_enabled = true <;>
  by_cases h4 : prev = some ' ' <;>
  by_cases h5 : prev = none <;>
  by_cases h6 : char = ' ' <;>
    simp_all +decide [newlineWordStage, newlineFires, interFires, intraFires,
      hasKey, List.any_append, pyGauss, drawQ]

theorem punct_hasKey (cfg : TimingConfig) (prev : Option Char)
    (d : ℚ) (bd : Breakdown) (r : Rng) (s : RState) (k : String) :
    hasKey (punctuationStage cfg prev d bd r s).2.1 k =
      (hasKey bd k || (punctFires cfg prev && ("punctuation" == k))) := by
  rw [Bool.eq_iff_iff]
  by_cases h1 : cfg.punctuation_pause_enabled = true <;>
  by_cases h2 : optPunct prev = true <;>
    simp_all +decide [punctuationStage, punctFires, hasKey, List.any_append,
      pyGauss, drawQ]

theorem shift_hasKey (cfg : TimingConfig) (char : Char) (d : ℚ)
    (bd : Breakdown) (k : String) :
    hasKey (shiftStage cfg char d bd).2 k =
      (hasKey bd k || (shiftFires cfg char && ("shift" == k))) := by
  rw [Bool.eq_iff_iff]
  by_cases h1 : cfg.shift_penalty_enabled = true <;>
  by_cases h2 : char ∈ SHIFT_CHARS <;>
    simp_all +decide [shiftStage, shiftFires, hasKey, List.any_append]

theorem dl_hasKey (cfg : TimingConfig) (char : Char) (prev : Option Char)
    (d : ℚ) (bd : Breakdown) (k : String) :
    hasKey (doubleLetterStage cfg char prev d bd).2 k =
      (hasKey bd k || (dlFires cfg char prev && ("double_letter_factor" == k))) := by
  rw [Bool.eq_iff_iff]
  by_cases h1 : cfg.double_letter_enabled = true <;>
  by_cases h2 : optSameLetter char prev = true <;>
    simp_all +decide [doubleLetterStage, dlFires, hasKey, List.any_append]

theorem fatigue_hasKey (cfg : TimingConfig) (index total : ℤ) (d : ℚ)
    (bd : Breakdown) (k : String) :
    hasKey (fatigueStage cfg index total d bd).2 k =
      (hasKey bd k || (fatigueFires cfg total && ("fatigue_multiplier" == k))) := by
  rw [Bool.eq_iff_iff]
  unfold fatigueStage fatigueFires
  split_ifs with h1 <;> simp_all +decide [hasKey, List.any_append] <;> tauto

theorem pyRound_nonneg (x : ℚ) (p : Nat) (hx : 0 ≤ x) : 0 ≤ pyRound x p := by
  have hs : (0 : ℚ) < (10 : ℚ) ^ p := by positivity
  have hy : (0 : ℚ) ≤ x * (10 : ℚ) ^ p := by positivity
  have hf : (0 : ℤ) ≤ ⌊x * (10 : ℚ) ^ p⌋ := Int.floor_nonneg.mpr hy
  have hn : ∀ n : ℤ, 0 ≤ n → 0 ≤ ((n : ℚ) / (10 : ℚ) ^ p) := by
    intro n hn0
    apply div_nonneg _ (le_of_lt hs)
    exact_mod_cast hn0
  simp only [pyRound]
  split_ifs <;> apply hn <;> omega

theorem burstStage_disabled (cfg : TimingConfig) (delay : ℚ) (bd : Breakdown)
    (ts : TimingState) (r : Rng) (s : RState)
    (hb : cfg.burst_enabled = false) :
    burstStage cfg delay bd ts r s = some (delay, bd, ts, s) := by
  simp [burstStage, hb]

/-- State evolution of the burst stage when bursting is enabled: the
counter increments; on reaching the target it resets to zero, the pause
is recorded, and a fresh target is drawn from the configured range. -/
theorem burstStage_state (cfg : TimingConfig) (delay : ℚ) (bd : Breakdown)
    (ts : TimingState) (r : Rng) (s : RState) (d' : ℚ) (bd' : Breakdown)
    (ts' : TimingState) (s' : RState)
    (hb : cfg.burst_enabled = true)
    (h : burstStage cfg delay bd ts r s = some (d', bd', ts', s')) :
    (ts.burst_counter + 1 < ts.burst_size →
      ts' = ⟨ts.burst_counter + 1, ts.burst_size⟩ ∧ bd' = bd) ∧
    (ts.burst_size ≤ ts.burst_counter + 1 →
      cfg.burst_length_min ≤ cfg.burst_length_max ∧
      ts'.burst_counter = 0 ∧
      cfg.burst_length_min ≤ ts'.burst_size ∧
      ts'.burst_size ≤ cfg.burst_length_max ∧
      ∃ v, 0 ≤ v ∧ bd' = bd ++ [("burst", v)]) := by
  unfold burstStage checkBurstBoundary pyRandint at h
  rw [hb] at h
  by_cases h2 : ts.burst_size ≤ ts.burst_counter + 1
  · rw [if_pos rfl, if_pos h2] at h
    by_cases h3 : cfg.burst_length_min ≤ cfg.burst_length_max
    · rw [if_pos h3] at h
      simp only [drawN, pyGauss, drawQ, Option.map_some', Option.some.injEq,
        Prod.mk.injEq, if_true, eq_self_iff_true] at h
      obtain ⟨hd, hbd, hts, hs⟩ := h
      refine ⟨fun hlt => absurd h2 (by omega), fun _ => ⟨h3, rfl, ?_, ?_, ?_⟩⟩
      · have := Int.emod_nonneg ((r.n s.kn : ℤ))
          (by omega : cfg.burst_length_max - cfg.burst_length_min + 1 ≠ 0)
        show cfg.burst_length_min ≤ cfg.burst_length_min +
          (r.n s.kn : ℤ) % (cfg.burst_length_max - cfg.burst_length_min + 1)
        linarith
      · have := Int.emod_lt_of_pos ((r.n s.kn : ℤ))
          (by omega : 0 < cfg.burst_length_max - cfg.burst_length_min + 1)
        show cfg.burst_length_min +
          (r.n s.kn : ℤ) % (cfg.burst_length_max - cfg.burst_length_min + 1) ≤
          cfg.burst_length_max
        linarith
      · exact ⟨_, pyRound_nonneg _ _ (le_max_left 0 _), rfl⟩
    · rw [if_neg h3] at h
      simp at h
  · rw [if_pos rfl, if_neg h2] at h
    simp only [Option.map_some', Option.some.injEq, Prod.mk.injEq,
      Bool.false_eq_true, if_false] at h
    obtain ⟨hd, hbd, hts, hs⟩ := h
    exact ⟨fun _ => ⟨hts.symm, hbd.symm⟩, fun hle => absurd hle (by omega)⟩

theorem burst_hasKey (cfg : TimingConfig) (delay : ℚ) (bd : Breakdown)
    (ts : TimingState) (r : Rng) (s : RState) (d' : ℚ) (bd' : Breakdown)
    (ts' : TimingState) (s' : RState)
    (h : burstStage cfg delay bd ts r s = some (d', bd', ts', s'))
    (k : String) :
    hasKey bd' k = (hasKey bd k || (burstFires cfg ts && ("burst" == k))) := by
  by_cases hb : cfg.burst_enabled = true
  · obtain ⟨hlt, hge⟩ := burstStage_state cfg delay bd ts r s d' bd' ts' s' hb h
    by_cases h2 : ts.burst_size ≤ ts.burst_counter + 1
    · obtain ⟨-, -, -, -, v, -, hbd⟩ := hge h2
      subst hbd
      simp [hasKey, List.any_append, burstFires, hb, h2]
    · obtain ⟨-, hbd⟩ := hlt (by omega)
      subst hbd
      simp [burstFires, hb, h2]
  · have hb2 : cfg.burst_enabled = false := by
      revert hb; cases cfg.burst_enabled <;> simp
    rw [burstStage_disabled cfg delay bd ts r s hb2] at h
    simp only [Option.some.injEq, Prod.mk.injEq] at h
    obtain ⟨-, hbd, -, -⟩ := h
    subst hbd
    simp [burstFires, hb2]

theorem hasKey_singleton (k2 k : String) (v : ℚ) :
    hasKey [(k2, v)] k = (k2 == k) := by
  simp [hasKey]

/-- Which keys a `calculate_delay` breakdown contains: exactly the stages
whose gates fired (the burst key needs the call to have returned, which
under a fired burst gate implies the `randint` succeeded). -/
theorem calculateDelay_hasKey (cfg : TimingConfig) (char : Char)
    (prev : Option Char) (index total : ℤ) (ts : TimingState) (r : Rng)
    (s : RState) (out : ℚ × Breakdown × TimingState × RState)
    (h : calculateDelay cfg char prev index total ts r s = some out)
    (k : String) :
    hasKey out.2.1 k =
      (("base" == k)
        || (newlineFires cfg prev && ("newline" == k))
        || (interFires cfg prev && ("inter_word" == k))
        || (intraFires cfg char prev && ("intra_word_factor" == k))
        || (punctFires cfg prev && ("punctuation" == k))
        || (shiftFires cfg char && ("shift" == k))
        || (dlFires cfg char prev && ("double_letter_factor" == k))
        || (burstFires cfg ts && ("burst" == k))
        || (fatigueFires cfg total && ("fatigue_multiplier" == k))
        || ("final" == k)) := by
  unfold calculateDelay at h
  rcases hb1 : baseStage cfg r s with ⟨d1, b1, s1⟩
  rw [hb1] at h; dsimp only at h
  rcases hb2 : newlineWordStage cfg char prev d1 b1 r s1 with ⟨d2, b2, s2⟩
  rw [hb2] at h; dsimp only at h
  rcases hb3 : punctuationStage cfg prev d2 b2 r s2 with ⟨d3, b3, s3⟩
  rw [hb3] at h; dsimp only at h
  rcases hb4 : shiftStage cfg char d3 b3 with ⟨d4, b4⟩
  rw [hb4] at h; dsimp only at h
  rcases hb5 : doubleLetterStage cfg char prev d4 b4 with ⟨d5, b5⟩
  rw [hb5] at h; dsimp only at h
  rw [Option.map_eq_some'] at h
  obtain ⟨⟨d6, b6, ts6, s6⟩, hx, hf⟩ := h
  dsimp only at hf
  rcases hb7 : fatigueStage cfg index total d6 b6 with ⟨d7, b7⟩
  rw [hb7] at hf; dsimp only at hf
  rw [← hf]
  show hasKey (b7 ++ [("final", pyRound (max 15 d7) 1)]) k = _
  rw [hasKey_append, hasKey_singleton]
  have e7 : b7 = (fatigueStage cfg index total d6 b6).2 := by rw [hb7]
  rw [e7, fatigue_hasKey]
  rw [burst_hasKey cfg d5 b5 ts r s3 d6 b6 ts6 s6 hx]
  have e5 : b5 = (doubleLetterStage cfg char prev d4 b4).2 := by rw [hb5]
  rw [e5, dl_hasKey]
  have e4 : b4 = (shiftStage cfg char d3 b3).2 := by rw [hb4]
  rw [e4, shift_hasKey]
  have e3 : b3 = (punctuationStage cfg prev d2 b2 r s2).2.1 := by rw [hb3]
  rw [e3, punct_hasKey]
  have e2 : b2 = (newlineWordStage cfg char prev d1 b1 r s1).2.1 := by rw [hb2]
  rw [e2, nw_hasKey]
  have e1 : b1 = (baseStage cfg r s).2.1 := by rw [hb1]
  rw [e1, baseStage_hasKey]

/-- How `calculate_delay` evolves the burst state: untouched when
bursting is disabled; otherwise the counter increments, resetting to a
freshly drawn target on reaching the boundary. -/
theorem calculateDelay_ts (cfg : TimingConfig) (char : Char)
    (prev : Option Char) (index total : ℤ) (ts : TimingState) (r : Rng)
    (s : RState) (out : ℚ × Breakdown × TimingState × RState)
    (h : calculateDelay cfg char prev index total ts r s = some out) :
    (cfg.burst_enabled = false → out.2.2.1 = ts) ∧
    (cfg.burst_enabled = true →
      (ts.burst_counter + 1 < ts.burst_size →
        out.2.2.1 = ⟨ts.burst_counter + 1, ts.burst_size⟩) ∧
      (ts.burst_size ≤ ts.burst_counter + 1 →
        cfg.burst_length_min ≤ cfg.burst_length_max ∧
        out.2.2.1.burst_counter = 0 ∧
        cfg.burst_length_min ≤ out.2.2.1.burst_size ∧
        out.2.2.1.burst_size ≤ cfg.burst_length_max)) := by
  unfold calculateDelay at h
  rcases hb1 : baseStage cfg r s with ⟨d1, b1, s1⟩
  rw [hb1] at h; dsimp only at h
  rcases hb2 : newlineWordStage cfg char prev d1 b1 r s1 with ⟨d2, b2, s2⟩
  rw [hb2] at h; dsimp only at h
  rcases hb3 : punctuationStage cfg prev d2 b2 r s2 with ⟨d3, b3, s3⟩
  rw [hb3] at h; dsimp only at h
  rcases hb4 : shiftStage cfg char d3 b3 with ⟨d4, b4⟩
  rw [hb4] at h; dsimp only at h
  rcases hb5 : doubleLetterStage cfg char prev d4 b4 with ⟨d5, b5⟩
  rw [hb5] at h; dsimp only at h
  rw [Option.map_eq_some'] at h
  obtain ⟨⟨d6, b6, ts6, s6⟩, hx, hf⟩ := h
  dsimp only at hf
  rcases hb7 : fatigueStage cfg index total d6 b6 with ⟨d7, b7⟩
  rw [hb7] at hf; dsimp only at hf
  have hout : out.2.2.1 = ts6 := by rw [← hf]
  rw [hout]
  constructor
  · intro hbf
    rw [burstStage_disabled cfg d5 b5 ts r s3 hbf] at hx
    simp only [Option.some.injEq, Prod.mk.injEq] at hx
    exact hx.2.2.1.symm
  · intro hbt
    obtain ⟨hlt, hge⟩ := burstStage_state cfg d5 b5 ts r s3 d6 b6 ts6 s6 hbt hx
    exact ⟨fun hl => (hlt hl).1, fun hg =>
      ⟨(hge hg).1, (hge hg).2.1, (hge hg).2.2.1, (hge hg).2.2.2.1⟩⟩

/-- `_reset_burst` (run at `reset()` and construction): counter zero and
a target inside the configured range. -/
theorem resetBurst_spec (cfg : TimingConfig) (r : Rng) (s0 : RState)
    (ts0 : TimingState) (s1 : RState)
    (h : resetBurst cfg r s0 = some (ts0, s1)) :
    ts0.burst_counter = 0 ∧ cfg.burst_length_min ≤ ts0.burst_size ∧
    ts0.burst_size ≤ cfg.burst_length_max := by
  unfold resetBurst pyRandint at h
  by_cases hmm : cfg.burst_length_min ≤ cfg.burst_length_max
  · rw [if_pos hmm] at h
    simp only [drawN, Option.some_bind, Option.some.injEq, Prod.mk.injEq] at h
    obtain ⟨hts, hs⟩ := h
    have h0 := Int.emod_nonneg ((r.n s0.kn : ℤ))
      (by omega : cfg.burst_length_max - cfg.burst_length_min + 1 ≠ 0)
    have h1 := Int.emod_lt_of_pos ((r.n s0.kn : ℤ))
      (by omega : 0 < cfg.burst_length_max - cfg.burst_length_min + 1)
    refine ⟨rfl, ?_, ?_⟩
    · show cfg.burst_length_min ≤ cfg.burst_length_min +
        (r.n s0.kn : ℤ) % (cfg.burst_length_max - cfg.burst_length_min + 1)
      linarith
    · show cfg.burst_length_min +
        (r.n s0.kn : ℤ) % (cfg.burst_length_max - cfg.burst_length_min + 1) ≤
        cfg.burst_length_max
      linarith
  · rw [if_neg hmm] at h
    simp at h

/-- Evaluation of `calculate_delay` at the default configuration on
`'a'` with no previous character and all-zero draws. -/
theorem calculateDelay_default_eval :
    calculateDelay {} 'a' none 0 1 ⟨0, 3⟩ rng0 ⟨0, 0⟩ =
      some (70, [("base", 70), ("final", 70)], ⟨0, 3⟩, ⟨1, 0⟩) := by
  simp +decide [calculateDelay, baseStage, newlineWordStage,
    punctuationStage, shiftStage, doubleLetterStage, burstStage,
    fatigueStage, pyGauss, drawQ, pyRound, rng0, optPunct, optSameLetter]
  norm_num [show (15 : ℚ) ⊔ 70 = 70 from by decide, Int.fract]

/-- Evaluation of `calculate_delay` at the default configuration on `'a'`
after `'.'` with all-zero draws: the intra-word factor (×0.8) and the
punctuation pause (+200) both contribute. -/
theorem calculateDelay_punct_eval :
    calculateDelay {} 'a' (some '.') 0 2 ⟨0, 3⟩ rng0 ⟨0, 0⟩ =
      some (256, [("base", 70), ("intra_word_factor", 4 / 5),
        ("punctuation", 200), ("final", 256)], ⟨0, 3⟩, ⟨2, 0⟩) := by
  simp +decide [calculateDelay, baseStage, newlineWordStage,
    punctuationStage, shiftStage, doubleLetterStage, burstStage,
    fatigueStage, pyGauss, drawQ, pyRound, rng0, optPunct, optSameLetter]
  norm_num [show (15 : ℚ) ⊔ (70 * (8 / 10) + 200) = 256 from by
      rw [show (70 : ℚ) * (8 / 10) + 200 = 256 by norm_num]
      exact sup_eq_right.mpr (by norm_num),
    show (0 : ℚ) ⊔ 200 = 200 from sup_eq_right.mpr (by norm_num), Int.fract]

/-- **C6 counterexample** — The punctuation pause can never contribute in
the same call as the newline pause: their gates need `prev_char` to be
`'\n'` and a punctuation mark at once.  This refutes the claim's
assertion that the punctuation stage "can contribute in the same call as
either of them". -/
theorem c6_counterexample :
    ¬ ∃ (cfg : TimingConfig) (char : Char) (prev : Option Char)
        (index total : ℤ) (ts : TimingState) (r : Rng) (s : RState)
        (out : ℚ × Breakdown × TimingState × RState),
      calculateDelay cfg char prev index total ts r s = some out ∧
      hasKey out.2.1 "newline" = true ∧
      hasKey out.2.1 "punctuation" = true := by
  rintro ⟨cfg, char, prev, index, total, ts, r, s, out, h, hn, hp⟩
  rw [calculateDelay_hasKey cfg char prev index total ts r s out h] at hn hp
  simp +decide at hn hp
  obtain ⟨-, hprev⟩ : cfg.newline_pause_enabled = true ∧ prev = some '\n' := by
    simpa [newlineFires] using hn
  obtain ⟨-, hopt⟩ : cfg.punctuation_pause_enabled = true ∧ optPunct prev = true := by
    simpa [punctFires] using hp
  rw [hprev] at hopt
  exact absurd hopt (by decide)

/-- **C6 (amended)** — The newline stage and the word-boundary stage are
mutually exclusive in every breakdown; the punctuation stage is gated
only by its own enable flag and the previous character (independent of
which other stage fired); it can contribute in the same call as the
word-boundary stage via the intra-word factor, but never together with
the newline or inter-word contributions, whose gates need a different
previous character. -/
theorem c6_stage_exclusivity (cfg : TimingConfig) (char : Char)
    (prev : Option Char) (index total : ℤ) (ts : TimingState) (r : Rng)
    (s : RState) (out : ℚ × Breakdown × TimingState × RState)
    (h : calculateDelay cfg char prev index total ts r s = some out) :
    (hasKey out.2.1 "newline" = true →
      hasKey out.2.1 "inter_word" = false ∧
      hasKey out.2.1 "intra_word_factor" = false) ∧
    hasKey out.2.1 "punctuation" = punctFires cfg prev ∧
    (hasKey out.2.1 "punctuation" = true →
      hasKey out.2.1 "newline" = false ∧
      hasKey out.2.1 "inter_word" = false) ∧
    (∃ out2, calculateDelay {} 'a' (some '.') 0 2 ⟨0, 3⟩ rng0 ⟨0, 0⟩ =
        some out2 ∧
      hasKey out2.2.1 "punctuation" = true ∧
      hasKey out2.2.1 "intra_word_factor" = true) := by
  have hk := calculateDelay_hasKey cfg char prev index total ts r s out h
  have hnl := hk "newline"
  have hiw := hk "inter_word"
  have hif := hk "intra_word_factor"
  have hpc := hk "punctuation"
  simp +decide at hnl hiw hif hpc
  refine ⟨?_, hpc, ?_, ?_⟩
  · intro hN
    rw [hnl] at hN
    constructor
    · rw [hiw]
      simp [interFires, hN]
    · rw [hif]
      simp [intraFires, hN]
  · intro hP
    rw [hpc] at hP
    obtain ⟨-, hopt⟩ : cfg.punctuation_pause_enabled = true ∧ optPunct prev = true := by
      simpa [punctFires] using hP
    cases prev with
    | none => exact absurd hopt (by decide)
    | some p =>
      have hmem : p = '.' ∨ p = ',' ∨ p = '!' ∨ p = '?' ∨ p = ':' ∨ p = ';' := by
        simpa [optPunct, PUNCTUATION_CHARS] using hopt
      constructor
      · rw [hnl]
        rcases hmem with rfl | rfl | rfl | rfl | rfl | rfl <;>
          simp +decide [newlineFires]
      · rw [hiw]
        rcases hmem with rfl | rfl | rfl | rfl | rfl | rfl <;>
          simp +decide [interFires, newlineFires]
  · refine ⟨_, calculateDelay_punct_eval, by decide, by decide⟩

/-- Witness for C6 at the concrete call where punctuation and the
intra-word factor co-occur. -/
theorem c6_stage_exclusivity_witness :
    hasKey (256, [(("base" : String), (70 : ℚ)), ("intra_word_factor", 4 / 5),
      ("punctuation", 200), ("final", 256)], (⟨0, 3⟩ : TimingState),
      (⟨2, 0⟩ : RState)).2.1 "punctuation" =
      punctFires {} (some '.') :=
  (c6_stage_exclusivity {} 'a' (some '.') 0 2 ⟨0, 3⟩ rng0 ⟨0, 0⟩ _
    calculateDelay_punct_eval).2.1

/-- **C9 counterexample** — With the default configuration (bursting
disabled) a call to `calculate_delay` leaves the burst counter untouched,
refuting "the internal burst counter increments by one on every call". -/
theorem c9_counterexample :
    ¬ ∀ (cfg : TimingConfig) (char : Char) (prev : Option Char)
        (index total : ℤ) (ts : TimingState) (r : Rng) (s : RState)
        (out : ℚ × Breakdown × TimingState × RState),
      calculateDelay cfg char prev index total ts r s = some out →
      (out.2.2.1.burst_counter = ts.burst_counter + 1 ∨
        (ts.burst_size ≤ ts.burst_counter + 1 ∧
          out.2.2.1.burst_counter = 0)) := by
  intro hclaim
  have h := hclaim {} 'a' none 0 1 ⟨0, 3⟩ rng0 ⟨0, 0⟩
    (70, [("base", 70), ("final", 70)], ⟨0, 3⟩, ⟨1, 0⟩)
    calculateDelay_default_eval
  rcases h with h | h
  · exact absurd h (by decide)
  · exact absurd h.1 (by decide)

/-- **C9 (amended)** — When bursting is *enabled*, every call advances
the burst counter: below the target it increments by one and no burst
pause is recorded; on reaching the target a floor-at-zero burst pause is
recorded, the counter resets to zero, and a fresh target is drawn from
the configured `[min, max]` range — the same range the target is drawn
from at model reset.  (With bursting disabled the counter is untouched.) -/
theorem c9_burst_behaviour (cfg : TimingConfig) (char : Char)
    (prev : Option Char) (index total : ℤ) (ts : TimingState) (r : Rng)
    (s : RState) (out : ℚ × Breakdown × TimingState × RState)
    (hb : cfg.burst_enabled = true)
    (h : calculateDelay cfg char prev index total ts r s = some out) :
    (ts.burst_counter + 1 < ts.burst_size →
      out.2.2.1 = ⟨ts.burst_counter + 1, ts.burst_size⟩ ∧
      hasKey out.2.1 "burst" = false) ∧
    (ts.burst_size ≤ ts.burst_counter + 1 →
      cfg.burst_length_min ≤ cfg.burst_length_max ∧
      out.2.2.1.burst_counter = 0 ∧
      cfg.burst_length_min ≤ out.2.2.1.burst_size ∧
      out.2.2.1.burst_size ≤ cfg.burst_length_max ∧
      hasKey out.2.1 "burst" = true) ∧
    (∀ (s0 : RState) (ts0 : TimingState) (s1 : RState),
      resetBurst cfg r s0 = some (ts0, s1) →
      ts0.burst_counter = 0 ∧ cfg.burst_length_min ≤ ts0.burst_size ∧
      ts0.burst_size ≤ cfg.burst_length_max) := by
  have hst := calculateDelay_ts cfg char prev index total ts r s out h
  have hbk := calculateDelay_hasKey cfg char prev index total ts r s out h "burst"
  simp +decide at hbk
  refine ⟨fun hlt => ⟨(hst.2 hb).1 hlt, ?_⟩,
    fun hge => ⟨((hst.2 hb).2 hge).1, ((hst.2 hb).2 hge).2.1,
      ((hst.2 hb).2 hge).2.2.1, ((hst.2 hb).2 hge).2.2.2, ?_⟩,
    fun s0 ts0 s1 hr => resetBurst_spec cfg r s0 ts0 s1 hr⟩
  · rw [hbk]
    simp [burstFires, hb, show ¬(ts.burst_size ≤ ts.burst_counter + 1) from
      by omega]
  · rw [hbk]
    simp [burstFires, hb, hge]

/-- Evaluation of `calculate_delay` with bursting enabled below the
boundary (counter 0, target 3): only the counter moves. -/
theorem calculateDelay_burst_eval :
    calculateDelay { burst_enabled := true } 'a' none 0 1 ⟨0, 3⟩ rng0 ⟨0, 0⟩ =
      some (70, [("base", 70), ("final", 70)], ⟨1, 3⟩, ⟨1, 0⟩) := by
  simp +decide [calculateDelay, baseStage, newlineWordStage,
    punctuationStage, shiftStage, doubleLetterStage, burstStage,
    checkBurstBoundary, pyRandint, drawN, pyGauss, drawQ,
    fatigueStage, pyRound, rng0, optPunct, optSameLetter]
  norm_num [show (15 : ℚ) ⊔ 70 = 70 from sup_eq_right.mpr (by norm_num),
    Int.fract]

/-- Witness for C9 at a concrete burst-enabled call below the boundary. -/
theorem c9_burst_behaviour_witness :
    (⟨1, 3⟩ : TimingState) = ⟨0 + 1, 3⟩ ∧
    hasKey [(("base" : String), (70 : ℚ)), ("final", 70)] "burst" = false :=
  (c9_burst_behaviour { burst_enabled := true } 'a' none 0 1 ⟨0, 3⟩ rng0
    ⟨0, 0⟩ _ rfl calculateDelay_burst_eval).1 (by decide)

theorem pyChoice_ne_none {α : Type} (l : List α) (r : Rng) (s : RState)
    (hl : l ≠ []) : pyChoice l r s ≠ none := by
  unfold pyChoice drawN
  have hlen : 0 < l.length := List.length_pos.mpr hl
  have hlt : (r.n s.kn) % l.length < l.length := Nat.mod_lt _ hlen
  obtain ⟨a, ha⟩ : ∃ a, l[r.n s.kn % l.length]? = some a :=
    ⟨_, List.getElem?_eq_getElem hlt⟩
  simp [ha]

/-- Per-call bookkeeping of `process_char`: `total_chars` always moves by
one; `skip_next` is set exactly when the transposition counter moves, in
which case the action list starts with the swapped pair; and the other
counters either all stand still or record exactly one typo in exactly one
class together with exactly one revised/unrevised verdict. -/
theorem processChar_spec (cfg : TypoConfig) (char : Char)
    (prev next : Option Char) (st : TypoStats) (r : Rng) (s : RState)
    (acts : List Action) (skip : Bool) (st2 : TypoStats) (s2 : RState)
    (h : processChar cfg char prev next st r s = some (acts, skip, st2, s2)) :
    st2.total_chars = st.total_chars + 1 ∧
    (skip = true ↔ st2.transposition = st.transposition + 1) ∧
    (skip = true → ∃ nc, next = some nc ∧
      acts.take 2 = [Action.type nc (Label.transposedPair char nc),
        Action.type char Label.transposed]) ∧
    ((st2.typos = st.typos ∧ st2.adjacent = st.adjacent ∧
      st2.transposition = st.transposition ∧
      st2.double_strike = st.double_strike ∧
      st2.revised = st.revised ∧ st2.unrevised = st.unrevised) ∨
     (st2.typos = st.typos + 1 ∧
      st2.adjacent + st2.transposition + st2.double_strike =
        st.adjacent + st.transposition + st.double_strike + 1 ∧
      st2.revised + st2.unrevised = st.revised + st.unrevised + 1)) := by
  unfold processChar at h
  by_cases he : cfg.enabled_types = []
  · rw [if_pos he] at h
    simp only [Option.some.injEq, Prod.mk.injEq] at h
    rw [← h.2.1, ← h.2.2.1]
    exact ⟨rfl, by simp, by simp, Or.inl ⟨rfl, rfl, rfl, rfl, rfl, rfl⟩⟩
  · rw [if_neg he] at h
    simp only [pyRandom, drawQ] at h
    by_cases hu : cfg.actual_typo_prob ≤ r.q s.kq
    · rw [if_pos hu] at h
      simp only [Option.some.injEq, Prod.mk.injEq] at h
      rw [← h.2.1, ← h.2.2.1]
      exact ⟨rfl, by simp, by simp, Or.inl ⟨rfl, rfl, rfl, rfl, rfl, rfl⟩⟩
    · rw [if_neg hu] at h
      rcases hc : pyChoice cfg.enabled_types r ⟨s.kq + 1, s.kn⟩ with _ | ⟨tk, s3⟩
      · exact absurd hc (pyChoice_ne_none _ _ _ he)
      · rw [hc] at h
        simp only [Option.bind_eq_bind, Option.some_bind] at h
        cases tk with
        | adjacent =>
          dsimp only at h
          unfold adjacentTypo at h
          by_cases hn : get_adjacent_keys char = []
          · rw [if_pos hn] at h
            simp only [Option.some.injEq, Prod.mk.injEq] at h
            rw [← h.2.1, ← h.2.2.1]
            exact ⟨rfl, by simp, by simp, Or.inl ⟨rfl, rfl, rfl, rfl, rfl, rfl⟩⟩
          · rw [if_neg hn] at h
            rcases hc2 : pyChoice (get_adjacent_keys char) r s3 with _ | ⟨w, s4⟩
            · exact absurd hc2 (pyChoice_ne_none _ _ _ hn)
            · rw [hc2] at h
              simp only [Option.bind_eq_bind, Option.some_bind, pyRandom,
                drawQ] at h
              by_cases hrev : r.q s4.kq < cfg.actual_revision_prob
              · rw [if_pos hrev] at h
                simp only [pyGauss, drawQ, Option.some.injEq,
                  Prod.mk.injEq] at h
                rw [← h.2.1, ← h.2.2.1]
                refine ⟨rfl, by simp, by simp, Or.inr ⟨rfl, ?_, ?_⟩⟩
                · show st.adjacent + 1 + st.transposition + st.double_strike =
                    st.adjacent + st.transposition + st.double_strike + 1
                  omega
                · show st.revised + 1 + st.unrevised =
                    st.revised + st.unrevised + 1
                  omega
              · rw [if_neg hrev] at h
                simp only [Option.some.injEq, Prod.mk.injEq] at h
                rw [← h.2.1, ← h.2.2.1]
                refine ⟨rfl, by simp, by simp, Or.inr ⟨rfl, ?_, ?_⟩⟩
                · show st.adjacent + 1 + st.transposition + st.double_strike =
                    st.adjacent + st.transposition + st.double_strike + 1
                  omega
                · show st.revised + (st.unrevised + 1) =
                    st.revised + st.unrevised + 1
                  omega
        | transposition =>
          dsimp only at h
          unfold transpositionTypo at h
          cases next with
          | none =>
            simp only [Option.some.injEq, Prod.mk.injEq] at h
            rw [← h.2.1, ← h.2.2.1]
            exact ⟨rfl, by simp, by simp, Or.inl ⟨rfl, rfl, rfl, rfl, rfl, rfl⟩⟩
          | some nc =>
            simp only [pyRandom, drawQ] at h
            by_cases hrev : r.q s3.kq < cfg.actual_revision_prob
            · rw [if_pos hrev] at h
              simp only [pyGauss, drawQ, Option.some.injEq,
                Prod.mk.injEq] at h
              rw [← h.1, ← h.2.1, ← h.2.2.1]
              refine ⟨rfl, by simp, fun _ => ⟨nc, rfl, rfl⟩,
                Or.inr ⟨rfl, ?_, ?_⟩⟩
              · show st.adjacent + (st.transposition + 1) + st.double_strike =
                  st.adjacent + st.transposition + st.double_strike + 1
                omega
              · show st.revised + 1 + st.unrevised =
                  st.revised + st.unrevised + 1
                omega
            · rw [if_neg hrev] at h
              simp only [Option.some.injEq, Prod.mk.injEq] at h
              rw [← h.1, ← h.2.1, ← h.2.2.1]
              refine ⟨rfl, by simp, fun _ => ⟨nc, rfl, rfl⟩,
                Or.inr ⟨rfl, ?_, ?_⟩⟩
              · show st.adjacent + (st.transposition + 1) + st.double_strike =
                  st.adjacent + st.transposition + st.double_strike + 1
                omega
              · show st.revised + (st.unrevised + 1) =
                  st.revised + st.unrevised + 1
                omega
        | double_strike =>
          dsimp only at h
          unfold doubleStrikeTypo at h
          simp only [pyRandom, drawQ] at h
          by_cases hrev : r.q s3.kq < cfg.actual_revision_prob
          · rw [if_pos hrev] at h
            simp only [pyGauss, drawQ, Option.some.injEq, Prod.mk.injEq] at h
            rw [← h.2.1, ← h.2.2.1]
            refine ⟨rfl, by simp, by simp, Or.inr ⟨rfl, ?_, ?_⟩⟩
            · show st.adjacent + st.transposition + (st.double_strike + 1) =
                st.adjacent + st.transposition + st.double_strike + 1
              omega
            · show st.revised + 1 + st.unrevised = st.revised + st.unrevised + 1
              omega
          · rw [if_neg hrev] at h
            simp only [Option.some.injEq, Prod.mk.injEq] at h
            rw [← h.2.1, ← h.2.2.1]
            refine ⟨rfl, by simp, by simp, Or.inr ⟨rfl, ?_, ?_⟩⟩
            · show st.adjacent + st.transposition + (st.double_strike + 1) =
                st.adjacent + st.transposition + st.double_strike + 1
              omega
            · show st.revised + (st.unrevised + 1) =
                st.revised + st.unrevised + 1
              omega

/-- `process_char` always returns (its two `random.choice` calls are
guarded by non-emptiness checks). -/
theorem processChar_isSome (cfg : TypoConfig) (char : Char)
    (prev next : Option Char) (st : TypoStats) (r : Rng) (s : RState) :
    (processChar cfg char prev next st r s).isSome := by
  unfold processChar
  by_cases he : cfg.enabled_types = []
  · rw [if_pos he]; rfl
  · rw [if_neg he]
    simp only [pyRandom, drawQ]
    by_cases hu : cfg.actual_typo_prob ≤ r.q s.kq
    · rw [if_pos hu]; rfl
    · rw [if_neg hu]
      rcases hc : pyChoice cfg.enabled_types r ⟨s.kq + 1, s.kn⟩ with _ | ⟨tk, s3⟩
      · exact absurd hc (pyChoice_ne_none _ _ _ he)
      · simp only [Option.bind_eq_bind, Option.some_bind]
        cases tk with
        | adjacent =>
          dsimp only
          unfold adjacentTypo
          by_cases hn : get_adjacent_keys char = []
          · rw [if_pos hn]; rfl
          · rw [if_neg hn]
            rcases hc2 : pyChoice (get_adjacent_keys char) r s3 with _ | ⟨w, s4⟩
            · exact absurd hc2 (pyChoice_ne_none _ _ _ hn)
            · simp only [Option.bind_eq_bind, Option.some_bind, pyRandom, drawQ]
              by_cases hrev : r.q s4.kq < cfg.actual_revision_prob
              · rw [if_pos hrev]; rfl
              · rw [if_neg hrev]; rfl
        | transposition =>
          dsimp only
          unfold transpositionTypo
          cases next with
          | none => rfl
          | some nc =>
            simp only [pyRandom, drawQ]
            by_cases hrev : r.q s3.kq < cfg.actual_revision_prob
            · rw [if_pos hrev]; rfl
            · rw [if_neg hrev]; rfl
        | double_strike =>
          dsimp only
          unfold doubleStrikeTypo
          simp only [pyRandom, drawQ]
          by_cases hrev : r.q s3.kq < cfg.actual_revision_prob
          · rw [if_pos hrev]; rfl
          · rw [if_neg hrev]; rfl

theorem prev_step (text : List Char) (i : Nat) (hi : i < text.length) :
    prevFetch text i = some (if 0 < i then pyIndex text (i - 1) else none) := by
  unfold prevFetch
  by_cases h0 : 0 < i
  · rw [if_pos h0, if_pos h0]
    obtain ⟨c, hc⟩ : ∃ c, pyIndex text (i - 1) = some c := by
      unfold pyIndex
      exact ⟨_, List.get?_eq_get (by omega)⟩
    rw [hc]
    rfl
  · rw [if_neg h0, if_neg h0]

theorem next_step (text : List Char) (i : Nat) :
    nextFetch text i = some (if i < text.length - 1 then pyIndex text (i + 1)
      else none) := by
  unfold nextFetch
  by_cases h0 : i < text.length - 1
  · rw [if_pos h0, if_pos h0]
    obtain ⟨c, hc⟩ : ∃ c, pyIndex text (i + 1) = some c := by
      unfold pyIndex
      exact ⟨_, List.get?_eq_get (by omega)⟩
    rw [hc]
    rfl
  · rw [if_neg h0, if_neg h0]

/-- `process_text`'s cursor loop never hits an index error: every
`text[...]` access it performs is in range, from any starting cursor. -/
theorem processTextGo_isSome (cfg : TypoConfig) (text : List Char) (r : Rng) :
    ∀ (n i : Nat) (st : TypoStats) (s : RState), text.length - i ≤ n →
    (processTextGo cfg text i st r s).isSome := by
  intro n
  induction n with
  | zero =>
    intro i st s hn
    unfold processTextGo
    rw [dif_neg (by omega)]
    rfl
  | succ m ih =>
    intro i st s hn
    unfold processTextGo
    by_cases hi : i < text.length
    · rw [dif_pos hi]
      rw [show pyIndex text i = some (text.get ⟨i, hi⟩) from
        List.get?_eq_get hi]
      rw [prev_step text i hi, next_step text i]
      simp only [Option.bind_eq_bind, Option.some_bind]
      rcases hpc : processChar cfg (text.get ⟨i, hi⟩)
          (if 0 < i then pyIndex text (i - 1) else none)
          (if i < text.length - 1 then pyIndex text (i + 1) else none)
          st r s with _ | ⟨acts, skip, st2, s2⟩
      · have := processChar_isSome cfg (text.get ⟨i, hi⟩)
          (if 0 < i then pyIndex text (i - 1) else none)
          (if i < text.length - 1 then pyIndex text (i + 1) else none) st r s
        rw [hpc] at this
        simp at this
      · simp only [Option.bind_eq_bind, Option.some_bind]
        have hrec := ih (i + if skip then 2 else 1) st2 s2
          (by cases skip <;> simp <;> omega)
        rcases hout : processTextGo cfg text (i + if skip then 2 else 1)
            st2 r s2 with _ | ⟨rest, stR, sR⟩
        · rw [hout] at hrec
          simp at hrec
        · rfl
    · rw [dif_neg hi]
      rfl

/-- **C3** — `skip_next` (`consumedTwo`) is true exactly when a
transposition was realized (the transposition counter moves and the
action list starts `Type(nextChar)`, `Type(char)`), and on every in-range
cursor position `process_text` records that position's call and advances
its cursor by 2 exactly when `skip_next` was true, else by 1 — while
never indexing past the end of the text (the loop always returns). -/
theorem c3_consumedTwo_cursor (cfg : TypoConfig) (text : List Char)
    (r : Rng) (i : Nat) (st : TypoStats) (s : RState) :
    (processTextGo cfg text i st r s).isSome ∧
    (∀ (hi : i < text.length) (acts : List Action) (skip : Bool)
        (st2 : TypoStats) (s2 : RState),
      processChar cfg (text.get ⟨i, hi⟩)
          (if 0 < i then pyIndex text (i - 1) else none)
          (if i < text.length - 1 then pyIndex text (i + 1) else none)
          st r s = some (acts, skip, st2, s2) →
      processTextGo cfg text i st r s =
        (processTextGo cfg text (i + if skip then 2 else 1) st2 r s2).map
          (fun out => ((i, text.get ⟨i, hi⟩, acts) :: out.1, out.2)) ∧
      (skip = true ↔ st2.transposition = st.transposition + 1) ∧
      (skip = true → ∃ nc,
        (if i < text.length - 1 then pyIndex text (i + 1) else none) =
          some nc ∧
        acts.take 2 = [Action.type nc (Label.transposedPair
          (text.get ⟨i, hi⟩) nc), Action.type (text.get ⟨i, hi⟩)
          Label.transposed])) := by
  refine ⟨processTextGo_isSome cfg text r (text.length - i) i st s le_rfl, ?_⟩
  intro hi acts skip st2 s2 hpc
  have hspec := processChar_spec cfg (text.get ⟨i, hi⟩)
    (if 0 < i then pyIndex text (i - 1) else none)
    (if i < text.length - 1 then pyIndex text (i + 1) else none)
    st r s acts skip st2 s2 hpc
  refine ⟨?_, hspec.2.1, hspec.2.2.1⟩
  conv_lhs => rw [processTextGo]
  rw [dif_pos hi]
  rw [show pyIndex text i = some (text.get ⟨i, hi⟩) from List.get?_eq_get hi]
  rw [prev_step text i hi, next_step text i]
  simp only [Option.bind_eq_bind, Option.some_bind]
  rw [hpc]
  simp only [Option.bind_eq_bind, Option.some_bind]
  rcases hout : processTextGo cfg text (i + if skip then 2 else 1) st2 r s2
    with _ | ⟨rest, stR, sR⟩ <;> rfl

/-- Witness for C3: a transposition-certain configuration on `"ab"` at
cursor 0 consumes two characters. -/
theorem c3_consumedTwo_cursor_witness :
    (true = true ↔
      (⟨1, 1, 0, 1, 0, 0, 1⟩ : TypoStats).transposition =
        resetStats.transposition + 1) :=
  ((c3_consumedTwo_cursor
      { typo_prob := 10000, typo_revision_prob := 0,
        adjacent_key_enabled := false, transposition_enabled := true,
        double_strike_enabled := false }
      ['a', 'b'] rng0 0 resetStats ⟨0, 0⟩).2 (by decide)
    [Action.type 'b' (Label.transposedPair 'a' 'b'),
      Action.type 'a' Label.transposed]
    true ⟨1, 1, 0, 1, 0, 0, 1⟩ ⟨2, 1⟩ (by
      norm_num [processChar, TypoConfig.enabled_types,
        TypoConfig.actual_typo_prob, TypoConfig.actual_revision_prob,
        pyRandom, pyChoice, drawQ, drawN, pyGauss, transpositionTypo, rng0,
        resetStats, pyIndex])).2.1

/-- **C10** — From freshly reset statistics, after any sequence of
`process_char` calls the counters satisfy
`typos = adjacent + transposition + double_strike` and
`typos = revised + unrevised`. -/
theorem c10_stats_partition (cfg : TypoConfig)
    (calls : List (Char × Option Char × Option Char)) (r : Rng) (s : RState)
    (st2 : TypoStats) (s2 : RState)
    (h : processSeq cfg calls resetStats r s = some (st2, s2)) :
    st2.typos = st2.adjacent + st2.transposition + st2.double_strike ∧
    st2.typos = st2.revised + st2.unrevised := by
  suffices H : ∀ (calls : List (Char × Option Char × Option Char))
      (st : TypoStats) (s : RState) (st2 : TypoStats) (s2 : RState),
      processSeq cfg calls st r s = some (st2, s2) →
      (st.typos = st.adjacent + st.transposition + st.double_strike ∧
        st.typos = st.revised + st.unrevised) →
      (st2.typos = st2.adjacent + st2.transposition + st2.double_strike ∧
        st2.typos = st2.revised + st2.unrevised) by
    exact H calls resetStats s st2 s2 h (by constructor <;> rfl)
  intro calls
  induction calls with
  | nil =>
    intro st s st2 s2 h hInv
    unfold processSeq at h
    simp only [Option.some.injEq, Prod.mk.injEq] at h
    rw [← h.1]
    exact hInv
  | cons c rest ih =>
    intro st s st2 s2 h hInv
    rcases c with ⟨ch, pc, nc⟩
    unfold processSeq at h
    rcases hpc : processChar cfg ch pc nc st r s with _ | ⟨acts, skip, stm, sm⟩
    · rw [hpc] at h
      simp at h
    · rw [hpc] at h
      simp only [Option.bind_eq_bind, Option.some_bind] at h
      have hspec := processChar_spec cfg ch pc nc st r s acts skip stm sm hpc
      apply ih stm sm st2 s2 h
      rcases hspec.2.2.2 with hL | hR
      · obtain ⟨h1, h2, h3, h4, h5, h6⟩ := hL
        exact ⟨by omega, by omega⟩
      · obtain ⟨h1, h2, h3⟩ := hR
        exact ⟨by omega, by omega⟩

/-- Witness for C10 after one realized (unrevised) transposition. -/
theorem c10_stats_partition_witness :
    (⟨1, 1, 0, 1, 0, 0, 1⟩ : TypoStats).typos =
      (⟨1, 1, 0, 1, 0, 0, 1⟩ : TypoStats).adjacent +
      (⟨1, 1, 0, 1, 0, 0, 1⟩ : TypoStats).transposition +
      (⟨1, 1, 0, 1, 0, 0, 1⟩ : TypoStats).double_strike ∧
    (⟨1, 1, 0, 1, 0, 0, 1⟩ : TypoStats).typos =
      (⟨1, 1, 0, 1, 0, 0, 1⟩ : TypoStats).revised +
      (⟨1, 1, 0, 1, 0, 0, 1⟩ : TypoStats).unrevised :=
  c10_stats_partition
    { typo_prob := 10000, typo_revision_prob := 0,
      adjacent_key_enabled := false, transposition_enabled := true,
      double_strike_enabled := false }
    [('a', none, some 'b')] rng0 ⟨0, 0⟩ ⟨1, 1, 0, 1, 0, 0, 1⟩ ⟨2, 1⟩
    (by
      norm_num [processSeq, processChar, TypoConfig.enabled_types,
        TypoConfig.actual_typo_prob, TypoConfig.actual_revision_prob,
        pyRandom, pyChoice, drawQ, drawN, pyGauss, transpositionTypo, rng0,
        resetStats, pyIndex])

/-- **C4 counterexample** — `stop()` has no state guard: called with the
engine in `DONE` it is not a no-op; it moves the state to `IDLE` and
emits a log line and a state-change callback. -/
theorem c4_counterexample :
    ¬ ∀ e : Engine, e.state = EngineState.DONE → Engine.stop e = e := by
  intro hclaim
  have h := hclaim ⟨EngineState.DONE, false, true, [], []⟩ rfl
  have hst := congrArg Engine.state h
  simp [Engine.stop, Engine.setState, Engine.pushLog] at hst

/-- **C4 (amended)** — `stop()` behaves identically from *every* state,
`Idle` and `Done` included: it sets the cancellation flag, releases the
pause gate, reports `IDLE` (never `DONE`), and emits exactly one stop log
line and one `IDLE` state-change callback.  From `Idle` or `Done` it is
therefore not a no-op: the log and state-change callbacks still fire, and
from `Done` the reported state changes to `IDLE`. -/
theorem c4_stop_semantics (e : Engine) :
    (Engine.stop e).state = EngineState.IDLE ∧
    (Engine.stop e).stop_event = true ∧
    (Engine.stop e).pause_event = true ∧
    (Engine.stop e).logs = e.logs ++ [LogEvent.stoppedMark] ∧
    (Engine.stop e).state_changes = e.state_changes ++ [EngineState.IDLE] :=
  ⟨rfl, rfl, rfl, rfl, rfl⟩

/-- **C1** — On text `"ab"`, default timing configuration, all typo
classes disabled, a run started from `Idle` that is never paused or
stopped (constant-false stop signal, sink never failing), for every
random stream and clock: the run goes `COUNTDOWN → TYPING → DONE`,
invokes the completion callback with `total_chars = 2` and zero typos,
and emits exactly two `Type` actions. -/
theorem c1_scenario_ab (r : Rng) (clock : Nat → ℚ) :
    (engineRun { typo := typoAllOff }
        ['a', 'b'] r ⟨0, 0⟩ ⟨clock, fun _ => false, fun _ => false⟩
        ⟨0, 0, 0⟩).map
      (fun res => (res.endKind, res.acc.state_changes,
        (res.acc.emits.filter isTypeEmit).length,
        res.completed.map (fun st => (st.total_chars, st.typo_stats.typos)))) =
    some (RunEnd.done,
      [EngineState.COUNTDOWN, EngineState.TYPING, EngineState.DONE], 2,
      some (2, 0)) := by
  simp +decide [engineRun, resetBurst, pyRandint, drawN, countdownGo, runLoop,
    calculateDelay, baseStage, newlineWordStage, punctuationStage, shiftStage,
    doubleLetterStage, burstStage, fatigueStage, processChar,
    TypoConfig.enabled_types, execActions, execType, labelShowsBd, drawStop,
    drawFail, drawClock, buildStats, pyGauss, drawQ, pyIndex, pyRound,
    RunAcc.pushLog, RunAcc.pushEmit, RunAcc.setState, isTypeEmit, resetStats,
    typoAllOff]

/-- **C7** — For every shifted character `c`, `get_adjacent_keys c` has
the same length as `get_adjacent_keys (get_base_key c)` and is its
element-wise shift transform (explicit `UNSHIFT_MAP` entry where one
exists, else uppercase); in particular `get_adjacent_keys 'E'` is the
element-wise transform of `get_adjacent_keys 'e'`, which equals
`['3','4','w','r','s','d']`. -/
theorem c7_shifted_adjacency (c : Char) (hc : c ∈ SHIFT_CHARS) :
    (get_adjacent_keys c).length =
      (get_adjacent_keys (get_base_key c)).length ∧
    get_adjacent_keys c =
      (get_adjacent_keys (get_base_key c)).map shiftTransform ∧
    get_adjacent_keys 'E' = (get_adjacent_keys 'e').map shiftTransform ∧
    get_adjacent_keys 'e' = ['3', '4', 'w', 'r', 's', 'd'] := by
  have h : ∀ x ∈ SHIFT_CHARS,
      (get_adjacent_keys x).length =
        (get_adjacent_keys (get_base_key x)).length ∧
      get_adjacent_keys x =
        (get_adjacent_keys (get_base_key x)).map shiftTransform := by
    decide
  exact ⟨(h c hc).1, (h c hc).2, by decide, by decide⟩

/-- Witness for C7 at `c = 'E'`. -/
theorem c7_shifted_adjacency_witness :
    get_adjacent_keys 'E' =
      (get_adjacent_keys (get_base_key 'E')).map shiftTransform :=
  (c7_shifted_adjacency 'E' (by decide)).2.1

/-- With bursting disabled, `calculate_delay` always returns and leaves
the burst state untouched. -/
theorem calculateDelay_noBurst (cfg : TimingConfig) (char : Char)
    (prev : Option Char) (index total : ℤ) (ts : TimingState) (r : Rng)
    (s : RState) (hb : cfg.burst_enabled = false) :
    ∃ d bd s2, calculateDelay cfg char prev index total ts r s =
      some (d, bd, ts, s2) := by
  unfold calculateDelay
  rcases hb1 : baseStage cfg r s with ⟨d1, b1, s1⟩
  dsimp only
  rcases hb2 : newlineWordStage cfg char prev d1 b1 r s1 with ⟨d2, b2, s2⟩
  dsimp only
  rcases hb3 : punctuationStage cfg prev d2 b2 r s2 with ⟨d3, b3, s3⟩
  dsimp only
  rcases hb4 : shiftStage cfg char d3 b3 with ⟨d4, b4⟩
  dsimp only
  rcases hb5 : doubleLetterStage cfg char prev d4 b4 with ⟨d5, b5⟩
  dsimp only
  rw [burstStage_disabled cfg d5 b5 ts r s3 hb]
  simp only [Option.map_some']
  rcases hb7 : fatigueStage cfg index total d5 b5 with ⟨d7, b7⟩
  dsimp only
  exact ⟨_, _, _, rfl⟩

/-- With every typo class disabled, `process_char` returns one normal
`Type` action, `skip_next = false`, and only bumps `total_chars`. -/
theorem processChar_allOff (cfg : TypoConfig)
    (h1 : cfg.adjacent_key_enabled = false)
    (h2 : cfg.transposition_enabled = false)
    (h3 : cfg.double_strike_enabled = false)
    (char : Char) (prev next : Option Char) (st : TypoStats)
    (r : Rng) (s : RState) :
    processChar cfg char prev next st r s =
      some ([Action.type char Label.normal], false,
        { st with total_chars := st.total_chars + 1 }, s) := by
  simp [processChar, TypoConfig.enabled_types, h1, h2, h3]

/-- With bursting disabled, `calculate_delay` never raises. -/
theorem calculateDelay_noBurst_ne {cfg : TimingConfig} {char : Char}
    {prev : Option Char} {index total : ℤ} {ts : TimingState} {r : Rng}
    {s : RState} (hb : cfg.burst_enabled = false) :
    calculateDelay cfg char prev index total ts r s ≠ none := by
  obtain ⟨d, bd, s2, h⟩ :=
    calculateDelay_noBurst cfg char prev index total ts r s hb
  simp [h]

/-- **C5 counterexample** — Two identical precise-mode runs on `"ab"`,
one where the sink raises on the first emission attempt (forcing the
fallback) and one where it never raises, produce *identical* log traces,
while their emission traces differ: nothing about the fallback occurrence
is delivered to the log callback. -/
theorem c5_counterexample :
    (engineRun cfgPreciseNoTypos ['a', 'b'] rng0 ⟨0, 0⟩
        ⟨fun _ => 0, fun k => k == 0, fun _ => false⟩ ⟨0, 0, 0⟩).map
      (fun res => res.acc.logs) =
    (engineRun cfgPreciseNoTypos ['a', 'b'] rng0 ⟨0, 0⟩
        ⟨fun _ => 0, fun _ => false, fun _ => false⟩ ⟨0, 0, 0⟩).map
      (fun res => res.acc.logs) ∧
    (engineRun cfgPreciseNoTypos ['a', 'b'] rng0 ⟨0, 0⟩
        ⟨fun _ => 0, fun k => k == 0, fun _ => false⟩ ⟨0, 0, 0⟩).map
      (fun res => res.acc.emits) ≠
    (engineRun cfgPreciseNoTypos ['a', 'b'] rng0 ⟨0, 0⟩
        ⟨fun _ => 0, fun _ => false, fun _ => false⟩ ⟨0, 0, 0⟩).map
      (fun res => res.acc.emits) := by
  constructor <;>
    simp +decide [engineRun, resetBurst, pyRandint, drawN, countdownGo,
      runLoop, calculateDelay, baseStage, newlineWordStage, punctuationStage,
      shiftStage, doubleLetterStage, burstStage, fatigueStage, processChar,
      TypoConfig.enabled_types, execActions, execType, labelShowsBd, drawStop,
      drawFail, drawClock, buildStats, pyGauss, drawQ, pyIndex, pyRound,
      RunAcc.pushLog, RunAcc.pushEmit, RunAcc.setState, resetStats,
      typoAllOff, cfgPreciseNoTypos, rng0]

/-- **C5 (amended)** — When a precise-mode emission attempt for a `Type`
action raises, the engine falls back to one simple-mode emission for that
character only and continues; the next `Type` action is again attempted
in precise mode, the run completes normally and no exception escapes the
loop.  The fallback is *not* logged: the log callback receives exactly
the normal per-character lines (see the counterexample). -/
theorem c5_precise_fallback :
    (∀ (c : Char) (env : Env) (es : EnvState) (acc : RunAcc),
      env.sinkFail es.kf = true → env.sinkFail (es.kf + 1) = false →
      execType true false c env es acc =
        some (⟨es.kc, es.ks, es.kf + 1 + 1⟩,
          (acc.pushEmit (EmitEvent.typeFail c)).pushEmit
            (EmitEvent.typeSimple c))) ∧
    (∀ (c : Char) (env : Env) (es : EnvState) (acc : RunAcc),
      env.sinkFail es.kf = false →
      execType true false c env es acc =
        some (⟨es.kc, es.ks, es.kf + 1⟩,
          acc.pushEmit (EmitEvent.typePrecise c))) ∧
    (∀ (a b : Char) (r : Rng) (clock : Nat → ℚ),
      (engineRun cfgPreciseNoTypos [a, b] r ⟨0, 0⟩
          ⟨clock, fun k => k == 0, fun _ => false⟩ ⟨0, 0, 0⟩).map
        (fun res => (res.endKind, res.acc.emits, res.completed.isSome)) =
      some (RunEnd.done,
        [EmitEvent.typeFail a, EmitEvent.typeSimple a,
          EmitEvent.typePrecise b], true)) := by
  refine ⟨?_, ?_, ?_⟩
  · intro c env es acc h1 h2
    simp [execType, drawFail, h1, h2]
  · intro c env es acc h1
    simp [execType, drawFail, h1]
  · intro a b r clock
    simp +decide only [engineRun, resetBurst, pyRandint, drawN,
      cfgPreciseNoTypos, countdownGo, drawClock, RunAcc.setState,
      Option.bind_eq_bind, Option.some_bind, if_true, if_false,
      List.nil_append, List.length_cons, List.length_nil]
    rw [runLoop.eq_def]
    simp +decide only [dite_true, dite_false, if_true, if_false,
      drawStop, pyIndex, List.get?_cons_zero, List.get?_cons_succ,
      List.get?_nil]
    split
    · rename_i heq
      exact absurd heq (calculateDelay_noBurst_ne (by rfl))
    · rename_i delay bd ts s heq
      rw [processChar_allOff typoAllOff rfl rfl rfl]
      simp +decide only [execActions, drawStop, execType, drawFail,
        labelShowsBd, RunAcc.pushEmit, RunAcc.pushLog, drawClock,
        if_true, if_false, dite_true, dite_false]
      rw [runLoop.eq_def]
      simp +decide only [dite_true, dite_false, if_true, if_false,
        drawStop, pyIndex, List.get?_cons_zero, List.get?_cons_succ,
        List.get?_nil]
      split
      · rename_i heq2
        exact absurd heq2 (calculateDelay_noBurst_ne (by rfl))
      · rename_i delay2 bd2 ts2 s2 heq2
        rw [processChar_allOff typoAllOff rfl rfl rfl]
        simp +decide only [execActions, drawStop, execType, drawFail,
          labelShowsBd, RunAcc.pushEmit, RunAcc.pushLog, drawClock,
          if_true, if_false, dite_true, dite_false]
        rw [runLoop.eq_def]
        simp +decide only [dite_true, dite_false, if_true, if_false,
          drawClock, RunAcc.setState, RunAcc.pushLog, Option.map_some,
          Option.isSome_some, List.nil_append]
        simp

/-- Witness for C5: concrete characters, a sink that raises exactly on its
first call, and the zero oracle. -/
theorem c5_precise_fallback_witness :
    execType true false 'x' ⟨fun _ => 0, fun k => k == 0, fun _ => false⟩
        ⟨0, 0, 0⟩ {} =
      some (⟨0, 0, 2⟩,
        (RunAcc.pushEmit {} (EmitEvent.typeFail 'x')).pushEmit
          (EmitEvent.typeSimple 'x')) ∧
    execType true false 'y' ⟨fun _ => 0, fun k => k == 0, fun _ => false⟩
        ⟨0, 0, 1⟩ {} =
      some (⟨0, 0, 2⟩, RunAcc.pushEmit {} (EmitEvent.typePrecise 'y')) ∧
    (engineRun cfgPreciseNoTypos ['a', 'b'] rng0 ⟨0, 0⟩
        ⟨fun _ => 0, fun k => k == 0, fun _ => false⟩ ⟨0, 0, 0⟩).map
      (fun res => (res.endKind, res.acc.emits, res.completed.isSome)) =
    some (RunEnd.done,
      [EmitEvent.typeFail 'a', EmitEvent.typeSimple 'a',
        EmitEvent.typePrecise 'b'], true) :=
  ⟨c5_precise_fallback.1 'x' _ _ _ (by decide) (by decide),
   c5_precise_fallback.2.1 'y' _ _ _ (by decide),
   c5_precise_fallback.2.2 'a' 'b' rng0 (fun _ => 0)⟩

/-- **C8** — With all three typo classes disabled, `process_char` returns
exactly one normal `Type` action carrying the input character, with
`skip_next = false`, for every input and every random draw; only the
`total_chars` counter moves. -/
theorem c8_disabled_normal (cfg : TypoConfig)
    (h1 : cfg.adjacent_key_enabled = false)
    (h2 : cfg.transposition_enabled = false)
    (h3 : cfg.double_strike_enabled = false)
    (char : Char) (prev next : Option Char) (st : TypoStats)
    (r : Rng) (s : RState) :
    processChar cfg char prev next st r s =
      some ([Action.type char Label.normal], false,
        { st with total_chars := st.total_chars + 1 }, s) :=
  processChar_allOff cfg h1 h2 h3 char prev next st r s

/-- Witness for C8 at a concrete configuration and input. -/
theorem c8_disabled_normal_witness :
    processChar
      { adjacent_key_enabled := false, transposition_enabled := false,
        double_strike_enabled := false }
      'a' none (some 'b') resetStats rng0 ⟨0, 0⟩ =
      some ([Action.type 'a' Label.normal], false,
        { resetStats with total_chars := 1 }, ⟨0, 0⟩) :=
  c8_disabled_normal _ rfl rfl rfl 'a' none (some 'b') resetStats rng0 ⟨0, 0⟩

/-- **C2** — Whenever `calculate_delay` returns, the returned delay is at
least 15 ms, for every configuration (including negative or zero base
delay, variance and pause magnitudes) and every random draw. -/
theorem c2_delay_floor (cfg : TimingConfig) (char : Char) (prev : Option Char)
    (index total : ℤ) (ts : TimingState) (r : Rng) (s : RState)
    (out : ℚ × Breakdown × TimingState × RState)
    (h : calculateDelay cfg char prev index total ts r s = some out) :
    15 ≤ out.1 := by
  unfold calculateDelay at h
  rcases hb1 : baseStage cfg r s with ⟨d1, b1, s1⟩
  rw [hb1] at h; dsimp only at h
  rcases hb2 : newlineWordStage cfg char prev d1 b1 r s1 with ⟨d2, b2, s2⟩
  rw [hb2] at h; dsimp only at h
  rcases hb3 : punctuationStage cfg prev d2 b2 r s2 with ⟨d3, b3, s3⟩
  rw [hb3] at h; dsimp only at h
  rcases hb4 : shiftStage cfg char d3 b3 with ⟨d4, b4⟩
  rw [hb4] at h; dsimp only at h
  rcases hb5 : doubleLetterStage cfg char prev d4 b4 with ⟨d5, b5⟩
  rw [hb5] at h; dsimp only at h
  rw [Option.map_eq_some'] at h
  obtain ⟨⟨d6, b6, ts6, s6⟩, -, hf⟩ := h
  dsimp only at hf
  rcases hb7 : fatigueStage cfg index total d6 b6 with ⟨d7, b7⟩
  rw [hb7] at hf; dsimp only at hf
  rw [← hf]
  exact le_max_left _ _

/-- Witness for C2 at a concrete call. -/
theorem c2_delay_floor_witness : (15 : ℚ) ≤ 70 :=
  c2_delay_floor {} 'a' none 0 1 ⟨0, 3⟩ rng0 ⟨0, 0⟩
    (70, [("base", 70), ("final", 70)], ⟨0, 3⟩, ⟨1, 0⟩)
    calculateDelay_default_eval

end Typer
